import Mathlib

/-!
# FidelityTaxSummary: a verification development over `main.go`

The Go program reads a brokerage CSV export, turns each row into a `Transaction`,
partitions the transactions into short-term and long-term lists, sorts them by sale date,
buckets them by calendar quarter and prints a report.

Modelling conventions

* A Go `string` is a `List Char` (`Str`); the model covers valid UTF-8 text.
* A Go `panic` is the `Except.error` branch of `Except Panic _`.
* A `float64` is a sign together with a magnitude counted in units of `2^-1074`
  (the smallest positive subnormal), so every finite binary64 value is a natural number of
  units; `strconv.ParseFloat` rounds to the nearest representable value, ties to even, and
  reports a range error beyond the largest finite value.
* A `time.Time` produced by this program is a calendar date at midnight UTC.
* What the program prints from the ingest loop on is a list of `Output` items, one per print
  call; a run is its output together with the panic that stopped it, if any.
* The standard-library calls (`strings.TrimSpace`, `regexp`, `strconv.ParseFloat`,
  `time.Parse`, `time.Format`, `sort.SliceStable`, the `fmt` verbs) are modelled by their documented behaviour on the
  arguments this program passes to them.
-/

namespace FidelityTaxSummary

/-- Go strings, as lists of characters. -/
abbrev Str := List Char

/-- The ways the program can stop with a run-time panic. -/
inductive Panic where
  /-- The `panic("")` after printing "No number found". -/
  | noNumberFound
  /-- The `panic("")` after printing "Parse error:". -/
  | parseError
  /-- The `panic(fmt.Sprintf("cannot parse %s to time", in))` of `parseTime`. -/
  | cannotParseTime
  /-- A slice or string index outside its bounds. -/
  | indexOutOfRange
  deriving DecidableEq, Repr

/-- Indexing `xs[i]` as Go does it: a run-time panic when `i` is out of range. -/
def index {α : Type} (xs : List α) (i : Nat) : Except Panic α :=
  match xs[i]? with
  | some x => .ok x
  | none => .error .indexOutOfRange

/-! ## Text helpers from the Go standard library -/

/-- The predicate `unicode.IsSpace`: the Unicode White_Space property. -/
def isSpace (c : Char) : Bool :=
  let n := c.toNat
  (0x09 ≤ n && n ≤ 0x0D) || n == 0x20 || n == 0x85 || n == 0xA0 || n == 0x1680 ||
    (0x2000 ≤ n && n ≤ 0x200A) || n == 0x2028 || n == 0x2029 || n == 0x202F ||
    n == 0x205F || n == 0x3000

/-- The function `strings.TrimSpace`: drop leading and trailing white space. -/
def trimSpace (s : Str) : Str :=
  ((s.dropWhile isSpace).reverse.dropWhile isSpace).reverse

/-- The call `strings.ReplaceAll(in, ",", "")`: delete every comma. -/
def removeCommas (s : Str) : Str :=
  s.filter (fun c => c != ',')

/-- The regular-expression class `[0-9]`. -/
def isDigit (c : Char) : Bool :=
  '0'.toNat ≤ c.toNat && c.toNat ≤ '9'.toNat

/-! ## The regular expression `-?\$?([0-9]+(?:\.[0-9]+)?)`

Go's `regexp` picks the leftmost match and, at that position, the match a backtracking
engine finds first. Each function below matches one suffix of the pattern at the head of its
argument and returns the whole matched text together with capture group 1. -/

/-- The group `([0-9]+(?:\.[0-9]+)?)` at the head of `s`: a maximal digit run, then, when a
dot and at least one digit follow, the dot and the maximal digit run after it. -/
def matchNumber (s : Str) : Option Str :=
  let ds := s.takeWhile isDigit
  if ds = [] then none
  else
    match s.dropWhile isDigit with
    | '.' :: r =>
      let fs := r.takeWhile isDigit
      if fs = [] then some ds else some (ds ++ '.' :: fs)
    | _ => some ds

/-- The suffix `\$?(...)` at the head of `s`: first with the dollar sign consumed, then
without it. -/
def matchDollar (s : Str) : Option (Str × Str) :=
  let skip := (matchNumber s).map (fun g => (g, g))
  match s with
  | '$' :: r =>
    match matchNumber r with
    | some g => some ('$' :: g, g)
    | none => skip
  | _ => skip

/-- The whole pattern at the head of `s`: first with the minus sign consumed, then without
it. -/
def matchHere (s : Str) : Option (Str × Str) :=
  match s with
  | '-' :: r =>
    match matchDollar r with
    | some (w, g) => some ('-' :: w, g)
    | none => matchDollar s
  | _ => matchDollar s

/-- The method `re.FindStringSubmatch`: the leftmost match as `[whole, group1]`, or the empty
(nil) slice when the pattern matches nowhere. -/
def findStringSubmatch : Str → List Str
  | [] => []
  | c :: r =>
    match matchHere (c :: r) with
    | some (w, g) => [w, g]
    | none => findStringSubmatch r

/-! ## float64 -/

/-- A `float64` value. A finite value is `± mag * 2^-1074`. -/
inductive Float64 where
  | finite (neg : Bool) (mag : Nat)
  | inf (neg : Bool)
  | nan
  deriving DecidableEq, Repr

namespace Float64

/-- Positive zero, the Go constant `0`. -/
def zero : Float64 := .finite false 0

/-- Unary minus: flips the sign bit (also of zero). -/
def negate : Float64 → Float64
  | .finite s m => .finite (!s) m
  | .inf s => .inf (!s)
  | .nan => .nan

/-- The comparison `x == 0`: true of both zeros. -/
def isZero : Float64 → Bool
  | .finite _ m => m == 0
  | _ => false

/-- The comparison `x < 0`. -/
def isNegative : Float64 → Bool
  | .finite s m => s && m != 0
  | .inf s => s
  | .nan => false

/-- The number of `2^-1074` units in `1.0`. -/
def unit : Nat := 2 ^ 1074

/-- The first magnitude, in units, that is too large for a finite `float64`: `2^1024`. -/
def overflowBound : Nat := 2 ^ 2098

end Float64

/-- The quotient `a / b` rounded to the nearest natural number, ties to the even one. -/
def roundHalfEven (a b : Nat) : Nat :=
  let q := a / b
  let r := a % b
  if b < 2 * r ∨ (2 * r = b ∧ q % 2 = 1) then q + 1 else q

/-- The number of binary digits of `n`; `fuel` bounds the number of halvings and `n` itself
is always enough. -/
def bitLength : Nat → Nat → Nat
  | 0, _ => 0
  | fuel + 1, n => if n = 0 then 0 else bitLength fuel (n / 2) + 1

/-- Round the non-negative rational `p / q`, counted in units of `2^-1074`, to the nearest
binary64 magnitude (53 significant bits, ties to even); `none` when the rounded value
exceeds the largest finite `float64`. -/
def roundToFloat64 (p q : Nat) : Option Nat :=
  let n := p / q
  if n < 2 ^ 53 then some (roundHalfEven p q)
  else
    let e := bitLength n n - 53
    let r := roundHalfEven p (q * 2 ^ e) * 2 ^ e
    if Float64.overflowBound ≤ r then none else some r

/-- The value of a digit character. -/
def digitVal (c : Char) : Nat := c.toNat - '0'.toNat

/-- The natural number written by a list of decimal digits. -/
def decimalNat (ds : Str) : Nat :=
  ds.foldl (fun acc c => 10 * acc + digitVal c) 0

/-- The errors of `strconv.ParseFloat`. -/
inductive NumError where
  | errSyntax
  | errRange
  deriving DecidableEq, Repr

/-- The call `strconv.ParseFloat(s, 64)` on a plain decimal mantissa: digits with at most one
dot and at least one digit. The value `ip.fp` is `decimalNat (ip ++ fp) / 10 ^ fp.length`; it
is rounded to the nearest `float64`, and a value that rounds beyond the largest finite
`float64` is a range error. Signs, exponents, hexadecimal forms, infinities and NaN cannot
occur in capture group 1 of the pattern and are reported as syntax errors here. -/
def parseFloat (s : Str) : Except NumError Float64 :=
  let ip := s.takeWhile isDigit
  let rest := s.dropWhile isDigit
  let fp := match rest with
    | '.' :: r => r
    | _ => rest
  if fp.all isDigit && (ip ++ fp) != [] then
    match roundToFloat64 (decimalNat (ip ++ fp) * Float64.unit) (10 ^ fp.length) with
    | some m => .ok (.finite false m)
    | none => .error .errRange
  else .error .errSyntax

/-! ## The Field Sanitizer -/

/-- The function `sanitizeMoneySymbolsAndParseToFloat64` of `main.go`. -/
def sanitizeMoneySymbolsAndParseToFloat64 (input : Str) : Except Panic Float64 :=
  let s := trimSpace input
  if s = "--".toList ∨ s = [] then .ok Float64.zero
  else
    -- Remove commas
    let s := removeCommas s
    let m := findStringSubmatch s
    if m.length < 2 then .error .noNumberFound
    else do
      let numStr ← index m 1
      match parseFloat numStr with
      | .error _ => .error .parseError
      | .ok val =>
        let c ← index s 0
        if c = '-' then .ok val.negate else .ok val

/-! ## The Date Parser -/

/-- Go's `time.Month`: `January = 1`, ..., `December = 12`. -/
inductive Month where
  | January | February | March | April | May | June
  | July | August | September | October | November | December
  deriving DecidableEq, Repr

/-- The integer behind a `time.Month`. -/
def Month.toNat : Month → Nat
  | .January => 1 | .February => 2 | .March => 3 | .April => 4
  | .May => 5 | .June => 6 | .July => 7 | .August => 8
  | .September => 9 | .October => 10 | .November => 11 | .December => 12

/-- The conversion `Month(n)` for `n` in `1..12`. -/
def Month.ofNat? : Nat → Option Month
  | 1 => some .January | 2 => some .February | 3 => some .March | 4 => some .April
  | 5 => some .May | 6 => some .June | 7 => some .July | 8 => some .August
  | 9 => some .September | 10 => some .October | 11 => some .November
  | 12 => some .December
  | _ => none

/-- A `time.Time` as this program builds them: a calendar date at midnight UTC. -/
structure Time where
  year : Nat
  month : Month
  day : Nat
  deriving DecidableEq, Repr

namespace Time

/-- The zero value `time.Time{}`: January 1 of year 1. -/
def zero : Time := ⟨1, .January, 1⟩

/-- The method `Time.Month`. -/
def Month (t : Time) : FidelityTaxSummary.Month := t.month

/-- The method `Time.Before`: for dates at midnight UTC the instants compare as the triples
(year, month, day) do. -/
def Before (t u : Time) : Bool :=
  decide (t.year < u.year) ||
    (t.year == u.year &&
      (decide (t.month.toNat < u.month.toNat) ||
        (t.month.toNat == u.month.toNat && decide (t.day < u.day))))

end Time

/-- The helper `isLeap` of package `time`. -/
def isLeap (year : Nat) : Bool :=
  year % 4 == 0 && (year % 100 != 0 || year % 400 == 0)

/-- The helper `daysIn` of package `time`. -/
def daysIn (m : Month) (year : Nat) : Nat :=
  match m with
  | .February => if isLeap year then 29 else 28
  | .April | .June | .September | .November => 30
  | _ => 31

/-- The helper `getnum(s, true)` of package `time`: exactly two digits. -/
def getnum (s : Str) : Option (Nat × Str) :=
  match s with
  | a :: b :: r =>
    if isDigit a && isDigit b then some (digitVal a * 10 + digitVal b, r) else none
  | _ => none

/-- The literal `/` between two layout elements. -/
def skipSlash (s : Str) : Option Str :=
  match s with
  | '/' :: r => some r
  | _ => none

/-- The layout element `2006`: exactly four digits. -/
def getyear (s : Str) : Option (Nat × Str) :=
  match s with
  | a :: b :: c :: d :: r =>
    if isDigit a && isDigit b && isDigit c && isDigit d then
      some (decimalNat [a, b, c, d], r)
    else none
  | _ => none

/-- The call `time.Parse("01/02/2006", s)`; `none` stands for a non-nil error. The text must
be two digits, a slash, two digits, a slash and four digits with nothing after them; the
month must lie in `1..12` and the day in `1..daysIn month year`. -/
def timeParse (s : Str) : Option Time := do
  let (month, s) ← getnum s
  let s ← skipSlash s
  let (day, s) ← getnum s
  let s ← skipSlash s
  let (year, s) ← getyear s
  if s ≠ [] then none
  else
    match Month.ofNat? month with
    | none => none
    | some m => if day < 1 ∨ daysIn m year < day then none else some ⟨year, m, day⟩

/-- The function `parseTime` of `main.go`. -/
def parseTime (input : Str) : Except Panic Time :=
  if input = "Unknown".toList then .ok Time.zero
  else
    match timeParse input with
    | none => .error .cannotParseTime
    | some out => .ok out

/-! ## The Quarter Bucketer -/

/-- The function `determineQuarterFromDate` of `main.go`. -/
def determineQuarterFromDate (date : Time) : Nat :=
  if date.Month.toNat ≤ 3 then 0
  else if date.Month.toNat ≤ 6 then 1
  else if date.Month.toNat ≤ 9 then 2
  else 3

/-! ## The Record Classifier -/

/-- The struct `Transaction` of `main.go`. -/
structure Transaction where
  Symbol : Str
  Security : Str
  Quantity : Float64
  DateAcquired : Time
  DateSold : Time
  Proceeds : Float64
  CostBasis : Float64
  ShortTermNet : Float64
  LongTermNet : Float64
  deriving DecidableEq, Repr

/-- The zero value `Transaction{}`. -/
def Transaction.zero : Transaction :=
  ⟨[], [], Float64.zero, Time.zero, Time.zero, Float64.zero, Float64.zero, Float64.zero,
    Float64.zero⟩

/-- The error values of `main.go`; `ErrUnparsedLine` is the only one. -/
inductive Error where
  | ErrUnparsedLine
  deriving DecidableEq, Repr

/-- The function `parseRecordToTranscation` of `main.go`. The result pairs the transaction
with the error (`none` for `nil`); the field expressions of the struct literal are evaluated
in source order, so the first value cell that panics stops the evaluation. -/
def parseRecordToTranscation (record : List Str) :
    Except Panic (Transaction × Option Error) :=
  if record.length ≠ 10 then .ok (Transaction.zero, some .ErrUnparsedLine)
  else do
    let r0 ← index record 0
    if r0 = [] then .ok (Transaction.zero, some .ErrUnparsedLine)
    else do
      let symbol ← index record 0
      let security ← index record 1
      let quantity ← (index record 2) >>= sanitizeMoneySymbolsAndParseToFloat64
      let dateAcquired ← (index record 3) >>= parseTime
      let dateSold ← (index record 4) >>= parseTime
      let proceeds ← (index record 5) >>= sanitizeMoneySymbolsAndParseToFloat64
      let costBasis ← (index record 6) >>= sanitizeMoneySymbolsAndParseToFloat64
      let shortTermNet ← (index record 7) >>= sanitizeMoneySymbolsAndParseToFloat64
      let longTermNet ← (index record 8) >>= sanitizeMoneySymbolsAndParseToFloat64
      .ok ({ Symbol := symbol, Security := security, Quantity := quantity,
             DateAcquired := dateAcquired, DateSold := dateSold, Proceeds := proceeds,
             CostBasis := costBasis, ShortTermNet := shortTermNet,
             LongTermNet := longTermNet }, none)

/-! ## The Transaction Store and the pipeline of `main` -/

/-- The three package-level slices `AllTransactions`, `ShortTermNets`, `LongTermNets`. -/
structure Store where
  AllTransactions : List Transaction
  ShortTermNets : List Transaction
  LongTermNets : List Transaction
  deriving DecidableEq, Repr

/-- The initial values of the three slices: all empty. -/
def Store.empty : Store := ⟨[], [], []⟩

/-- One iteration of the `for _, record := range records` loop of `main`. -/
def ingestStep (st : Store) (record : List Str) : Except Panic Store := do
  let (transaction, err) ← parseRecordToTranscation record
  match err with
  | some _ =>
    -- Errors are expected as many lines that are not transactions wont parse
    .ok st
  | none =>
    let all := st.AllTransactions ++ [transaction]
    if transaction.ShortTermNet.isZero then
      .ok { st with AllTransactions := all, LongTermNets := st.LongTermNets ++ [transaction] }
    else
      .ok { st with AllTransactions := all, ShortTermNets := st.ShortTermNets ++ [transaction] }

/-- The ingest loop of `main` run from the store `st` over `records`. -/
def ingestFrom (st : Store) : List (List Str) → Except Panic Store
  | [] => .ok st
  | record :: rest =>
    match ingestStep st record with
    | .error e => .error e
    | .ok st1 => ingestFrom st1 rest

/-- The ingest loop of `main` over all records of the file, from the empty slices. -/
def ingest (records : List (List Str)) : Except Panic Store :=
  ingestFrom Store.empty records

/-- Insert `x`, which stood before every element of the sorted list in the input, in front of
the first element that is not strictly less than it. -/
def insertStable {α : Type} (less : α → α → Bool) (x : α) : List α → List α
  | [] => [x]
  | y :: ys => if less y x then y :: insertStable less x ys else x :: y :: ys

/-- The call `sort.SliceStable(xs, less)`. The library promises a sort that keeps equal
elements in their original order; the model computes that result by stable insertion. -/
def sortSliceStable {α : Type} (less : α → α → Bool) : List α → List α
  | [] => []
  | x :: xs => insertStable less x (sortSliceStable less xs)

/-- The comparison passed to each `sort.SliceStable` call of `main`. -/
def lessDateSold (a b : Transaction) : Bool :=
  a.DateSold.Before b.DateSold

/-- The three `sort.SliceStable` calls of `main`. -/
def sortAll (st : Store) : Store :=
  { AllTransactions := sortSliceStable lessDateSold st.AllTransactions
    ShortTermNets := sortSliceStable lessDateSold st.ShortTermNets
    LongTermNets := sortSliceStable lessDateSold st.LongTermNets }

/-- The local struct `Quarter` of `main`. -/
structure Quarter where
  Transactions : List Transaction
  deriving DecidableEq, Repr

/-- The loop `for range 4` of `main`: append an empty quarter `n` times. -/
def makeQuarters : Nat → List Quarter
  | 0 => []
  | n + 1 => makeQuarters n ++ [⟨[]⟩]

/-- The statement `Quarters[i].Transactions = append(Quarters[i].Transactions, t)`. -/
def appendToQuarter (quarters : List Quarter) (i : Nat) (t : Transaction) :
    Except Panic (List Quarter) := do
  let q ← index quarters i
  .ok (quarters.set i ⟨q.Transactions ++ [t]⟩)

/-- The loop `for _, t := range AllTransactions` of `main`, from the quarters `quarters`. -/
def bucketFrom (quarters : List Quarter) : List Transaction → Except Panic (List Quarter)
  | [] => .ok quarters
  | t :: rest =>
    match appendToQuarter quarters (determineQuarterFromDate t.DateSold) t with
    | .error e => .error e
    | .ok qs => bucketFrom qs rest

/-- The quarter separation of `main`: four empty quarters, then every transaction of the
list appended to the quarter of its sale date. -/
def bucket (all : List Transaction) : Except Panic (List Quarter) :=
  bucketFrom (makeQuarters 4) all

/-! ## Formatting -/

/-- The sum `x + y` of two `float64` values (IEEE 754, round to nearest, ties to even): the
exact sum of two finite values is rounded to 53 significant bits and becomes an infinity
beyond the largest finite value; an exact zero sum is `+0` unless both terms are negative. -/
def Float64.add : Float64 → Float64 → Float64
  | .nan, _ => .nan
  | _, .nan => .nan
  | .inf a, .inf b => if a = b then .inf a else .nan
  | .inf a, .finite _ _ => .inf a
  | .finite _ _, .inf b => .inf b
  | .finite sa ma, .finite sb mb =>
    if sa = sb then
      match roundToFloat64 (ma + mb) 1 with
      | some m => .finite sa m
      | none => .inf sa
    else if ma = mb then .finite false 0
    else if mb < ma then
      match roundToFloat64 (ma - mb) 1 with
      | some m => .finite sa m
      | none => .inf sa
    else
      match roundToFloat64 (mb - ma) 1 with
      | some m => .finite sb m
      | none => .inf sb

/-- The character of a decimal digit. -/
def digitChar (d : Nat) : Char :=
  match d with
  | 0 => '0' | 1 => '1' | 2 => '2' | 3 => '3' | 4 => '4'
  | 5 => '5' | 6 => '6' | 7 => '7' | 8 => '8' | _ => '9'

/-- The decimal digits of `n` in front of `acc`; `fuel` bounds the number of digits. -/
def decimalDigitsAux : Nat → Nat → Str → Str
  | 0, _, acc => acc
  | fuel + 1, n, acc =>
    if n / 10 = 0 then digitChar (n % 10) :: acc
    else decimalDigitsAux fuel (n / 10) (digitChar (n % 10) :: acc)

/-- The decimal writing of a natural number, as the verb `%d` prints it. -/
def decimalDigits (n : Nat) : Str :=
  decimalDigitsAux (n + 1) n []

/-- Pad a text with zeros on the left up to `width` characters. -/
def zeroPad (width : Nat) (s : Str) : Str :=
  List.replicate (width - s.length) '0' ++ s

/-- The verb `%.<prec>f` on a `float64`: the exact binary value rounded to `prec` decimals,
ties to even, with a minus sign when the sign bit is set (also for a zero). -/
def formatFixed (prec : Nat) : Float64 → Str
  | .nan => "NaN".toList
  | .inf neg => if neg then "-Inf".toList else "+Inf".toList
  | .finite neg mag =>
    let scaled := roundHalfEven (mag * 10 ^ prec) Float64.unit
    let ip := decimalDigits (scaled / 10 ^ prec)
    let fp := zeroPad prec (decimalDigits (scaled % 10 ^ prec))
    (if neg then ['-'] else []) ++ ip ++ (if prec = 0 then [] else '.' :: fp)

/-- The call `t.Format("01/02/2006")`: two-digit month, two-digit day, four-digit year. -/
def Time.Format (t : Time) : Str :=
  zeroPad 2 (decimalDigits t.month.toNat) ++ '/' :: zeroPad 2 (decimalDigits t.day) ++
    '/' :: zeroPad 4 (decimalDigits t.year)

/-! ## The Report Renderer -/

/-- The function `gainPhrase` of `main.go`. -/
def gainPhrase (t : Transaction) : Str :=
  if t.ShortTermNet.isZero then
    if t.LongTermNet.isNegative then
      "long term loss of ".toList ++ formatFixed 2 t.LongTermNet ++ " USD".toList
    else
      "long term gain of ".toList ++ formatFixed 2 t.LongTermNet ++ " USD".toList
  else
    if t.ShortTermNet.isNegative then
      "short term loss of ".toList ++ formatFixed 2 t.ShortTermNet ++ " USD".toList
    else
      "short term gain of ".toList ++ formatFixed 2 t.ShortTermNet ++ " USD".toList

/-- What the program writes to standard output from the ingest loop on, one item per print
call. The two report items carry the exact text written. -/
inductive Output where
  /-- The call `fmt.Println("did not parse record:", record)`. -/
  | didNotParse (record : List Str)
  /-- The notice the sanitizer prints before it panics ("No number found", "Parse error:"). -/
  | notice (p : Panic)
  /-- The call `fmt.Println(len(Quarters))`. -/
  | quarterCount (n : Nat)
  /-- The banner "ALL TRANSACTIONS SORTED BY SALE DATE, SPLIT BY QUARTER". -/
  | banner
  /-- The `fmt.Printf("Sold ...")` of one transaction. -/
  | transactionLine (text : Str)
  /-- The `fmt.Println(fmt.Sprintf("============ End of Quarter ..."))` of one quarter. -/
  | quarterSummary (text : Str)
  deriving DecidableEq, Repr

/-- A transaction line of the report. -/
def Output.isTransactionLine : Output → Bool
  | .transactionLine _ => true
  | _ => false

/-- A quarter summary line of the report. -/
def Output.isQuarterSummary : Output → Bool
  | .quarterSummary _ => true
  | _ => false

/-- The text of `fmt.Printf("Sold %.1f shares of %s on %s for a %s \n", t.Quantity, t.Symbol,
t.DateSold.Format("01/02/2006"), gainPhrase(t))`. -/
def soldLine (t : Transaction) : Str :=
  "Sold ".toList ++ formatFixed 1 t.Quantity ++ " shares of ".toList ++ t.Symbol ++
    " on ".toList ++ t.DateSold.Format ++ " for a ".toList ++ gainPhrase t ++ " \n".toList

/-- The text of `fmt.Println(fmt.Sprintf("============ End of Quarter %d || Short Term Net:
%.2f, Long Term Net: %.2f \n", n, shortTermNet, longTermNet))`. -/
def summaryLine (n : Nat) (shortTermNet longTermNet : Float64) : Str :=
  "============ End of Quarter ".toList ++ decimalDigits n ++
    " || Short Term Net: ".toList ++ formatFixed 2 shortTermNet ++
    ", Long Term Net: ".toList ++ formatFixed 2 longTermNet ++ " \n".toList ++ "\n".toList

/-- The body of `for i, q := range Quarters` for quarter `q` at index `i`: both totals start
at zero, every transaction of the quarter is printed and added to them, then the summary line
is printed with the number `i + 1`. -/
def printQuarter (i : Nat) (q : Quarter) : List Output :=
  let start : List Output × Float64 × Float64 := ([], Float64.zero, Float64.zero)
  let done := q.Transactions.foldl
    (fun acc t => (acc.1 ++ [Output.transactionLine (soldLine t)],
      acc.2.1.add t.ShortTermNet, acc.2.2.add t.LongTermNet)) start
  done.1 ++ [Output.quarterSummary (summaryLine (i + 1) done.2.1 done.2.2)]

/-- The loop `for i, q := range Quarters` from index `i` on. -/
def printQuartersFrom (i : Nat) : List Quarter → List Output
  | [] => []
  | q :: rest => printQuarter i q ++ printQuartersFrom (i + 1) rest

/-- What the sanitizer prints before the panic `p`. -/
def panicNotice (p : Panic) : List Output :=
  match p with
  | .noNumberFound => [.notice p]
  | .parseError => [.notice p]
  | _ => []

/-- What the ingest loop of `main` prints: a line for every rejected row, up to the first
row on which the classifier panics. -/
def ingestLog : List (List Str) → List Output
  | [] => []
  | record :: rest =>
    match parseRecordToTranscation record with
    | .error p => panicNotice p
    | .ok (_, some _) => .didNotParse record :: ingestLog rest
    | .ok (_, none) => ingestLog rest

/-- The outcome of a run: what was printed, and the panic that stopped the run, if any. -/
structure RunResult where
  output : List Output
  panic : Option Panic
  deriving DecidableEq, Repr

/-- The function `main` of `main.go` from the ingest loop on, for the records read from the
file: ingest, sort, separate into quarters, print. -/
def main (records : List (List Str)) : RunResult :=
  match ingest records with
  | .error p => ⟨ingestLog records, some p⟩
  | .ok st =>
    let st := sortAll st
    let quarters := makeQuarters 4
    let out := ingestLog records ++ [.quarterCount quarters.length, .banner]
    match bucketFrom quarters st.AllTransactions with
    | .error p => ⟨out, some p⟩
    | .ok quarters => ⟨out ++ printQuartersFrom 0 quarters, none⟩

/-! ## Sample rows -/

/-- The first row of the end-to-end example of the specification. -/
def sampleRowAAPL : List Str :=
  ["AAPL", "Apple Inc", "10", "01/01/2023", "02/15/2023", "1500.00", "1000.00", "500.00",
    "0", "x"].map String.toList

/-- The second row of the end-to-end example of the specification. -/
def sampleRowMSFT : List Str :=
  ["MSFT", "Microsoft", "5", "01/01/2022", "05/10/2023", "800.00", "900.00", "0",
    "-100.00", "x"].map String.toList

/-- A row with an empty symbol and junk in every value cell. -/
def sampleRowJunk : List Str :=
  ["", "n/a", "abc", "never", "13/40/2024", "$", "-", ",", "-,-", "x"].map String.toList

/-- The transaction of `sampleRowAAPL`. -/
def sampleAAPL : Transaction :=
  { Symbol := "AAPL".toList, Security := "Apple Inc".toList,
    Quantity := .finite false (10 * Float64.unit),
    DateAcquired := ⟨2023, .January, 1⟩, DateSold := ⟨2023, .February, 15⟩,
    Proceeds := .finite false (1500 * Float64.unit),
    CostBasis := .finite false (1000 * Float64.unit),
    ShortTermNet := .finite false (500 * Float64.unit),
    LongTermNet := .finite false 0 }

/-- The transaction of `sampleRowMSFT`. -/
def sampleMSFT : Transaction :=
  { Symbol := "MSFT".toList, Security := "Microsoft".toList,
    Quantity := .finite false (5 * Float64.unit),
    DateAcquired := ⟨2022, .January, 1⟩, DateSold := ⟨2023, .May, 10⟩,
    Proceeds := .finite false (800 * Float64.unit),
    CostBasis := .finite false (900 * Float64.unit),
    ShortTermNet := .finite false 0,
    LongTermNet := .finite true (100 * Float64.unit) }

/-! ## Vocabulary of the statements -/

/-- The first numeric run of a text, in the words of the specification: skip to the leftmost
digit, take the maximal run of digits there (the integer digits) and, when a dot followed by
at least one digit comes next, the maximal run of digits after the dot (the fraction digits,
empty when there is no fraction). -/
def firstNumericRun (s : Str) : Option (Str × Str) :=
  let t := s.dropWhile (fun c => !isDigit c)
  let ip := t.takeWhile isDigit
  if ip = [] then none
  else
    match t.dropWhile isDigit with
    | '.' :: r => some (ip, r.takeWhile isDigit)
    | _ => some (ip, [])

/-- The length of month `month` (1 to 12) in year `year` of the Gregorian calendar. -/
def monthLength (month year : Nat) : Nat :=
  if month = 2 then
    if year % 4 = 0 ∧ (year % 100 ≠ 0 ∨ year % 400 = 0) then 29 else 28
  else if month = 4 ∨ month = 6 ∨ month = 9 ∨ month = 11 then 30
  else 31

/-- A valid date in strict `MM/DD/YYYY` form, in the words of the specification: exactly two
digits, a slash, two digits, a slash and four digits, where the month is one of 1 to 12 and
the day exists in that month of that year. -/
def isStrictDate (s : Str) : Bool :=
  match s with
  | [m1, m2, s1, d1, d2, s2, y1, y2, y3, y4] =>
    let month := digitVal m1 * 10 + digitVal m2
    let day := digitVal d1 * 10 + digitVal d2
    let year := decimalNat [y1, y2, y3, y4]
    [m1, m2, d1, d2, y1, y2, y3, y4].all isDigit && s1 == '/' && s2 == '/' &&
      decide (1 ≤ month) && decide (month ≤ 12) &&
      decide (1 ≤ day) && decide (day ≤ monthLength month year)
  | _ => false

/-- The transaction of an accepted row: the row's transaction when the classifier returns
it with a `nil` error, nothing when the row is rejected (or the classifier panics). -/
def acceptedTransaction (record : List Str) : Option Transaction :=
  match parseRecordToTranscation record with
  | .ok (t, none) => some t
  | _ => none

/-- The list `out` is the stable sort of `inp` by sale date: a permutation of `inp`, in
non-decreasing order of `DateSold` (no later element is before an earlier one), in which the
transactions of each sale date stand in the order they have in `inp`. -/
def IsStableSortByDateSold (out inp : List Transaction) : Prop :=
  out.Perm inp ∧
  out.Pairwise (fun a b => b.DateSold.Before a.DateSold = false) ∧
  ∀ d : Time, out.filter (fun t => t.DateSold == d) = inp.filter (fun t => t.DateSold == d)

/-- The transactions of quarter `k` in a list of quarters (none when `k` is out of range). -/
def quarterTransactions (quarters : List Quarter) (k : Nat) : List Transaction :=
  (quarters.getD k ⟨[]⟩).Transactions

/-- The sublist of the transactions whose sale date falls in quarter `k`. -/
def inQuarter (k : Nat) (l : List Transaction) : List Transaction :=
  l.filter (fun t => determineQuarterFromDate t.DateSold == k)

/-- The absolute value of a `float64`: the same magnitude with the sign bit cleared. -/
def Float64.abs : Float64 → Float64
  | .finite _ m => .finite false m
  | .inf _ => .inf false
  | .nan => .nan

/-- The net a gain phrase is about: `LongTermNet` when `ShortTermNet == 0`, else
`ShortTermNet`. -/
def relevantNet (t : Transaction) : Float64 :=
  if t.ShortTermNet.isZero then t.LongTermNet else t.ShortTermNet

/-- A transaction with the two nets given and all other fields zero. -/
def transactionWithNets (shortTermNet longTermNet : Float64) : Transaction :=
  { Transaction.zero with ShortTermNet := shortTermNet, LongTermNet := longTermNet }

/-- The `float64` value -50.25. -/
def minusFiftyAndAQuarter : Float64 := .finite true (201 * Float64.unit / 4)

/-- The `float64` value 100.00. -/
def oneHundred : Float64 := .finite false (100 * Float64.unit)

/-- The running `float64` sum of a list, from `0`, in list order. -/
def floatSum (l : List Float64) : Float64 :=
  l.foldl Float64.add Float64.zero

/-- The exact value of a finite `float64`, as a signed number of `2^-1074` units (zero for
the infinities and NaN, which have no exact value and never come out of the sanitizer). -/
def Float64.exactUnits : Float64 → Int
  | .finite neg mag => if neg then -(mag : Int) else (mag : Int)
  | _ => 0

/-- The sum of a list of `float64` values in exact arithmetic, in `2^-1074` units. -/
def exactSum (l : List Float64) : Int :=
  (l.map Float64.exactUnits).sum

/-- A header row of ten column titles. -/
def sampleRowHeader : List Str :=
  ["Symbol", "Security", "Quantity", "Date Acquired", "Date Sold", "Proceeds", "Cost Basis",
    "Short Term", "Long Term", "x"].map String.toList

/-- A row whose two date cells are `Unknown`. -/
def sampleRowUnknown : List Str :=
  ["XYZ", "Some Co", "1", "Unknown", "Unknown", "10.00", "10.00", "0", "0", "x"].map
    String.toList

/-- A row sold on the last day of year 0000. -/
def sampleRowYearZero : List Str :=
  ["OLD", "Old Co", "1", "Unknown", "12/31/0000", "10.00", "10.00", "0", "0", "x"].map
    String.toList

/-- A row sold on the first day of year 0001. -/
def sampleRowYearOne : List Str :=
  ["ONE", "One Co", "1", "Unknown", "01/01/0001", "10.00", "10.00", "0", "0", "x"].map
    String.toList

/-- The transaction of a row of symbol `symbol` and security `security` with quantity 1,
acquired on an unknown date, sold on `d` for 10.00 at a cost of 10.00, both nets 0. -/
def flatSale (symbol security : String) (d : Time) : Transaction :=
  { Symbol := symbol.toList, Security := security.toList,
    Quantity := .finite false Float64.unit,
    DateAcquired := Time.zero, DateSold := d,
    Proceeds := .finite false (10 * Float64.unit),
    CostBasis := .finite false (10 * Float64.unit),
    ShortTermNet := .finite false 0, LongTermNet := .finite false 0 }

/-- A transaction sold on the given date, all other fields zero. -/
def transactionSoldOn (d : Time) : Transaction :=
  { Transaction.zero with DateSold := d }

/-- The four buckets one after the other, Q1 first. -/
def reportOrder (quarters : List Quarter) : List Transaction :=
  quarterTransactions quarters 0 ++ quarterTransactions quarters 1 ++
    quarterTransactions quarters 2 ++ quarterTransactions quarters 3

/-- A row sold on 11/01/2022. -/
def sampleRowNov2022 : List Str :=
  ["NOV", "Nov Co", "1", "Unknown", "11/01/2022", "10.00", "10.00", "0", "0", "x"].map
    String.toList

/-- A row sold on 02/01/2023. -/
def sampleRowFeb2023 : List Str :=
  ["FEB", "Feb Co", "1", "Unknown", "02/01/2023", "10.00", "10.00", "0", "0", "x"].map
    String.toList

/-- The `float64` nearest to the exact value of `z` units of `2^-1074` (ties to even), an
infinity of the sign of `z` when that is beyond the largest finite value; an exact zero gets
the sign bit `zeroSign`. -/
def Float64.ofExact (z : Int) (zeroSign : Bool) : Float64 :=
  match roundToFloat64 z.natAbs 1 with
  | some m => .finite (if z = 0 then zeroSign else decide (z < 0)) m
  | none => .inf (decide (z < 0))

/-- The sum of two `float64` values in the words of IEEE 754: NaN if a term is NaN or the
terms are infinities of opposite signs, the infinite term if there is one, and otherwise the
exact sum of the two values rounded to nearest; an exact zero sum is negative only when both
terms are negative. -/
def ieeeSum (a b : Float64) : Float64 :=
  match a, b with
  | .finite sa _, .finite sb _ => Float64.ofExact (a.exactUnits + b.exactUnits) (sa && sb)
  | .nan, _ => .nan
  | _, .nan => .nan
  | .inf sa, .inf sb => if sa = sb then .inf sa else .nan
  | .inf sa, .finite _ _ => .inf sa
  | .finite _ _, .inf sb => .inf sb

/-- The running sum of a list of `float64` values from `0`, in list order, every addition
the IEEE 754 sum. -/
def roundedTotal (l : List Float64) : Float64 :=
  l.foldl ieeeSum Float64.zero

/-- The exact value `z` (in units) is a `float64`: rounding does not change it. -/
def isExactFloat (z : Int) : Bool :=
  roundToFloat64 z.natAbs 1 == some z.natAbs

/-- Adding the list to the exact value `acc` one term at a time never needs rounding: every
term is finite and every partial sum is a `float64`. -/
def sumsWithoutRounding (acc : Int) : List Float64 → Bool
  | [] => true
  | .finite s m :: rest =>
    isExactFloat (acc + (Float64.finite s m).exactUnits) &&
      sumsWithoutRounding (acc + (Float64.finite s m).exactUnits) rest
  | _ :: _ => false

/-- The quarter summary in the words of the specification: the 1-indexed quarter number and
the sums of `ShortTermNet` and `LongTermNet`, each formatted to 2 decimal places. -/
def quarterEndText (number : String) (shortTermNet longTermNet : Float64) : Str :=
  "============ End of Quarter ".toList ++ number.toList ++
    " || Short Term Net: ".toList ++ formatFixed 2 shortTermNet ++
    ", Long Term Net: ".toList ++ formatFixed 2 longTermNet ++ " \n\n".toList

/-- What the specification has the report print for one quarter: a line per transaction of
the quarter, then the summary with the quarter's number and the two running sums over the
transactions of this quarter. -/
def quarterBlock (number : String) (ts : List Transaction) : List Output :=
  ts.map (fun t => Output.transactionLine (soldLine t)) ++
    [Output.quarterSummary (quarterEndText number
      (roundedTotal (ts.map (fun t => t.ShortTermNet)))
      (roundedTotal (ts.map (fun t => t.LongTermNet))))]

/-- Four rows of one year: two short-term sales in the first quarter (0.10 and 0.20) and two
long-term sales in the second (-50.25 and 25.50), with a rejected row among them. -/
def sampleRowsTotals : List (List Str) :=
  [["BBB", "B Co", "1", "01/01/2023", "03/31/2023", "10", "10", "0.20", "0", "x"],
   ["CCC", "C Co", "2", "01/01/2021", "04/01/2023", "10", "10", "0", "-50.25", "x"],
   ["Total", "", ""],
   ["AAA", "A Co", "1", "01/01/2023", "01/10/2023", "10", "10", "0.10", "0", "x"],
   ["DDD", "D Co", "3", "01/01/2021", "06/30/2023", "10", "10", "0", "25.50", "x"]].map
    (fun r => r.map String.toList)

/-- A digit 1 followed by 309 zeros: the number `10^309`, beyond the `float64` range. -/
def hugeNumber : Str := '1' :: List.replicate 309 '0'


/-- A row whose value cells are well formed: the sanitizer returns on cells 2, 5, 6, 7, 8 and
the date parser returns on cells 3 and 4. -/
def valueCellsWellFormed (record : List Str) : Bool :=
  [2, 5, 6, 7, 8].all
      (fun i => (sanitizeMoneySymbolsAndParseToFloat64 (record.getD i [])).isOk) &&
    [3, 4].all (fun i => (parseTime (record.getD i [])).isOk)

deriving instance DecidableEq for Except

/-! ## Basic facts -/

theorem index_cons_zero {α : Type} (x : α) (xs : List α) : index (x :: xs) 0 = .ok x := by
  simp [index]

theorem index_cons_succ {α : Type} (x : α) (xs : List α) (i : Nat) :
    index (x :: xs) (i + 1) = index xs i := by
  simp [index]

theorem isOk_iff_exists {ε α : Type} (x : Except ε α) :
    x.isOk = true ↔ ∃ v, x = .ok v := by
  cases x <;> simp [Except.isOk, Except.toBool]

theorem length_eq_ten {α : Type} (l : List α) (h : l.length = 10) :
    ∃ c0 c1 c2 c3 c4 c5 c6 c7 c8 c9, l = [c0, c1, c2, c3, c4, c5, c6, c7, c8, c9] := by
  match l, h with
  | [c0, c1, c2, c3, c4, c5, c6, c7, c8, c9], _ => exact ⟨c0, c1, c2, c3, c4, c5, c6, c7, c8, c9, rfl⟩

/-- The record classifier on a row of exactly ten cells with a non-empty first cell. -/
theorem parseRecord_shaped (c0 c1 c2 c3 c4 c5 c6 c7 c8 c9 : Str) (h0 : c0 ≠ []) :
    parseRecordToTranscation [c0, c1, c2, c3, c4, c5, c6, c7, c8, c9] =
      (do
        let quantity ← sanitizeMoneySymbolsAndParseToFloat64 c2
        let dateAcquired ← parseTime c3
        let dateSold ← parseTime c4
        let proceeds ← sanitizeMoneySymbolsAndParseToFloat64 c5
        let costBasis ← sanitizeMoneySymbolsAndParseToFloat64 c6
        let shortTermNet ← sanitizeMoneySymbolsAndParseToFloat64 c7
        let longTermNet ← sanitizeMoneySymbolsAndParseToFloat64 c8
        Except.ok (⟨c0, c1, quantity, dateAcquired, dateSold, proceeds, costBasis,
          shortTermNet, longTermNet⟩, none)) := by
  simp [parseRecordToTranscation, index, h0, bind, Except.bind]

/-- The record classifier on a row that is not shaped like a transaction. -/
theorem parseRecord_unshaped (record : List Str)
    (h : record.length ≠ 10 ∨ record.head? = some []) :
    parseRecordToTranscation record = .ok (Transaction.zero, some .ErrUnparsedLine) := by
  unfold parseRecordToTranscation
  by_cases hl : record.length = 10
  · rcases h with h | h
    · exact absurd hl h
    · obtain ⟨c0, c1, c2, c3, c4, c5, c6, c7, c8, c9, rfl⟩ := length_eq_ten record hl
      simp at h
      subst h
      simp [index, bind, Except.bind]
  · simp [hl]

/-- Acceptance of a shaped row, cell by cell. -/
theorem parseRecord_accept_iff (c0 c1 c2 c3 c4 c5 c6 c7 c8 c9 : Str) (h0 : c0 ≠ [])
    (t : Transaction) :
    parseRecordToTranscation [c0, c1, c2, c3, c4, c5, c6, c7, c8, c9] = .ok (t, none) ↔
      t.Symbol = c0 ∧ t.Security = c1 ∧
      sanitizeMoneySymbolsAndParseToFloat64 c2 = .ok t.Quantity ∧
      parseTime c3 = .ok t.DateAcquired ∧
      parseTime c4 = .ok t.DateSold ∧
      sanitizeMoneySymbolsAndParseToFloat64 c5 = .ok t.Proceeds ∧
      sanitizeMoneySymbolsAndParseToFloat64 c6 = .ok t.CostBasis ∧
      sanitizeMoneySymbolsAndParseToFloat64 c7 = .ok t.ShortTermNet ∧
      sanitizeMoneySymbolsAndParseToFloat64 c8 = .ok t.LongTermNet := by
  rw [parseRecord_shaped _ _ _ _ _ _ _ _ _ _ h0]
  rcases t with ⟨sy, se, q, da, ds, p, cb, st, lt⟩
  cases sanitizeMoneySymbolsAndParseToFloat64 c2 <;>
  cases parseTime c3 <;>
  cases parseTime c4 <;>
  cases sanitizeMoneySymbolsAndParseToFloat64 c5 <;>
  cases sanitizeMoneySymbolsAndParseToFloat64 c6 <;>
  cases sanitizeMoneySymbolsAndParseToFloat64 c7 <;>
  cases sanitizeMoneySymbolsAndParseToFloat64 c8 <;>
  simp [bind, Except.bind]
  tauto

/-- A shaped row never yields the recoverable error. -/
theorem parseRecord_shaped_no_error (c0 c1 c2 c3 c4 c5 c6 c7 c8 c9 : Str) (h0 : c0 ≠ [])
    (t : Transaction) (e : Error) :
    parseRecordToTranscation [c0, c1, c2, c3, c4, c5, c6, c7, c8, c9] ≠ .ok (t, some e) := by
  rw [parseRecord_shaped _ _ _ _ _ _ _ _ _ _ h0]
  cases sanitizeMoneySymbolsAndParseToFloat64 c2 <;>
  cases parseTime c3 <;>
  cases parseTime c4 <;>
  cases sanitizeMoneySymbolsAndParseToFloat64 c5 <;>
  cases sanitizeMoneySymbolsAndParseToFloat64 c6 <;>
  cases sanitizeMoneySymbolsAndParseToFloat64 c7 <;>
  cases sanitizeMoneySymbolsAndParseToFloat64 c8 <;>
  simp [bind, Except.bind]

/-! ## C1: rejected rows and accepted rows -/

/-- C1: `parseRecordToTranscation` returns `ErrUnparsedLine` (with the zero transaction)
whenever the row does not have exactly 10 cells or its first cell is empty, whatever the
other cells hold, so no value cell is evaluated and nothing panics; a row of exactly 10 cells
with a non-empty first cell never yields `ErrUnparsedLine`, and when its value cells are well
formed it is accepted. -/
theorem C1_unparsed_exactly_when_unshaped (record : List Str) :
    ((record.length ≠ 10 ∨ record.head? = some []) →
      parseRecordToTranscation record = .ok (Transaction.zero, some .ErrUnparsedLine)) ∧
    (record.length = 10 → record.head? ≠ some [] →
      (∀ t e, parseRecordToTranscation record ≠ .ok (t, some e)) ∧
      (valueCellsWellFormed record = true →
        ∃ t, parseRecordToTranscation record = .ok (t, none))) := by
  refine ⟨parseRecord_unshaped record, fun hl h0 => ?_⟩
  obtain ⟨c0, c1, c2, c3, c4, c5, c6, c7, c8, c9, rfl⟩ := length_eq_ten record hl
  have h0 : c0 ≠ [] := by simpa using h0
  refine ⟨fun t e => parseRecord_shaped_no_error _ _ _ _ _ _ _ _ _ _ h0 t e, fun hw => ?_⟩
  simp only [valueCellsWellFormed, List.all_cons, List.all_nil, Bool.and_true,
    Bool.and_eq_true, isOk_iff_exists] at hw
  obtain ⟨⟨⟨q, hq⟩, ⟨p, hp⟩, ⟨cb, hcb⟩, ⟨st, hst⟩, ⟨lt, hlt⟩⟩, ⟨da, hda⟩, ⟨ds, hds⟩⟩ := hw
  simp at hq hp hcb hst hlt hda hds
  exact ⟨⟨c0, c1, q, da, ds, p, cb, st, lt⟩,
    (parseRecord_accept_iff _ _ _ _ _ _ _ _ _ _ h0 _).2
      ⟨rfl, rfl, hq, hda, hds, hp, hcb, hst, hlt⟩⟩

theorem C1_unparsed_exactly_when_unshaped_witness :
    parseRecordToTranscation sampleRowJunk = .ok (Transaction.zero, some .ErrUnparsedLine) ∧
    parseRecordToTranscation (sampleRowAAPL ++ [[]]) =
      .ok (Transaction.zero, some .ErrUnparsedLine) ∧
    (∀ t e, parseRecordToTranscation sampleRowAAPL ≠ .ok (t, some e)) ∧
    ∃ t, parseRecordToTranscation sampleRowAAPL = .ok (t, none) :=
  ⟨(C1_unparsed_exactly_when_unshaped sampleRowJunk).1 (Or.inr (by decide)),
   (C1_unparsed_exactly_when_unshaped (sampleRowAAPL ++ [[]])).1 (Or.inl (by decide)),
   ((C1_unparsed_exactly_when_unshaped sampleRowAAPL).2 (by decide) (by decide)).1,
   ((C1_unparsed_exactly_when_unshaped sampleRowAAPL).2 (by decide) (by decide)).2
     (by decide!)⟩

/-! ## C2: the fields of an accepted row -/

/-- C2: when `parseRecordToTranscation` accepts a row, the row has 10 cells and a non-empty
first cell, `Symbol` and `Security` are cells 0 and 1 verbatim, `Quantity`, `Proceeds`,
`CostBasis`, `ShortTermNet`, `LongTermNet` are the sanitizer's results on cells 2, 5, 6, 7,
8, and `DateAcquired`, `DateSold` are `parseTime`'s results on cells 3 and 4; replacing the
tenth cell by any text never changes the result of the classifier. -/
theorem C2_accepted_fields (r : List Str) (t : Transaction)
    (h : parseRecordToTranscation r = .ok (t, none)) :
    r.length = 10 ∧ r.getD 0 [] ≠ [] ∧
    t.Symbol = r.getD 0 [] ∧ t.Security = r.getD 1 [] ∧
    sanitizeMoneySymbolsAndParseToFloat64 (r.getD 2 []) = .ok t.Quantity ∧
    parseTime (r.getD 3 []) = .ok t.DateAcquired ∧
    parseTime (r.getD 4 []) = .ok t.DateSold ∧
    sanitizeMoneySymbolsAndParseToFloat64 (r.getD 5 []) = .ok t.Proceeds ∧
    sanitizeMoneySymbolsAndParseToFloat64 (r.getD 6 []) = .ok t.CostBasis ∧
    sanitizeMoneySymbolsAndParseToFloat64 (r.getD 7 []) = .ok t.ShortTermNet ∧
    sanitizeMoneySymbolsAndParseToFloat64 (r.getD 8 []) = .ok t.LongTermNet ∧
    ∀ x : Str, parseRecordToTranscation (r.set 9 x) = parseRecordToTranscation r := by
  by_cases hl : r.length = 10
  · obtain ⟨c0, c1, c2, c3, c4, c5, c6, c7, c8, c9, rfl⟩ := length_eq_ten r hl
    by_cases h0 : c0 = []
    · subst h0
      rw [parseRecord_unshaped _ (Or.inr (by simp))] at h
      simp at h
    · obtain ⟨h1, h2, h3, h4, h5, h6, h7, h8, h9⟩ :=
        (parseRecord_accept_iff _ _ _ _ _ _ _ _ _ _ h0 t).1 h
      refine ⟨rfl, by simpa using h0, by simpa using h1, by simpa using h2,
        by simpa using h3, by simpa using h4, by simpa using h5, by simpa using h6,
        by simpa using h7, by simpa using h8, by simpa using h9, fun x => ?_⟩
      simp only [List.set_cons_succ, List.set_cons_zero]
      rw [parseRecord_shaped _ _ _ _ _ _ _ _ _ _ h0, parseRecord_shaped _ _ _ _ _ _ _ _ _ _ h0]
  · rw [parseRecord_unshaped _ (Or.inl hl)] at h
    simp at h

theorem C2_accepted_fields_witness :
    sampleRowAAPL.length = 10 ∧ sampleRowAAPL.getD 0 [] ≠ [] ∧
    sampleAAPL.Symbol = sampleRowAAPL.getD 0 [] ∧
    sampleAAPL.Security = sampleRowAAPL.getD 1 [] ∧
    sanitizeMoneySymbolsAndParseToFloat64 (sampleRowAAPL.getD 2 []) =
      .ok sampleAAPL.Quantity ∧
    parseTime (sampleRowAAPL.getD 3 []) = .ok sampleAAPL.DateAcquired ∧
    parseTime (sampleRowAAPL.getD 4 []) = .ok sampleAAPL.DateSold ∧
    sanitizeMoneySymbolsAndParseToFloat64 (sampleRowAAPL.getD 5 []) =
      .ok sampleAAPL.Proceeds ∧
    sanitizeMoneySymbolsAndParseToFloat64 (sampleRowAAPL.getD 6 []) =
      .ok sampleAAPL.CostBasis ∧
    sanitizeMoneySymbolsAndParseToFloat64 (sampleRowAAPL.getD 7 []) =
      .ok sampleAAPL.ShortTermNet ∧
    sanitizeMoneySymbolsAndParseToFloat64 (sampleRowAAPL.getD 8 []) =
      .ok sampleAAPL.LongTermNet ∧
    ∀ x : Str, parseRecordToTranscation (sampleRowAAPL.set 9 x) =
      parseRecordToTranscation sampleRowAAPL :=
  C2_accepted_fields sampleRowAAPL sampleAAPL (by decide!)

/-! ## C3: blank cells and the placeholder -/

theorem isSpace_minus : isSpace '-' = false := by decide

theorem trimSpace_of_blank (s : Str) (h : ∀ c ∈ s, isSpace c = true) : trimSpace s = [] := by
  have h1 : s.dropWhile isSpace = [] := List.dropWhile_eq_nil_iff.2 h
  simp [trimSpace, h1]

theorem trimSpace_placeholder (pre post : Str) (hpre : ∀ c ∈ pre, isSpace c = true)
    (hpost : ∀ c ∈ post, isSpace c = true) :
    trimSpace (pre ++ "--".toList ++ post) = "--".toList := by
  have hrev : ∀ c ∈ post.reverse, isSpace c = true := fun c hc =>
    hpost c (List.mem_reverse.1 hc)
  have h1 : (pre ++ "--".toList ++ post).dropWhile isSpace = '-' :: '-' :: post := by
    rw [List.append_assoc, List.dropWhile_append_of_pos hpre]
    simp [List.dropWhile_cons, isSpace_minus]
  have h2 : ('-' :: '-' :: post).reverse = post.reverse ++ ['-', '-'] := by simp
  rw [trimSpace, h1, h2, List.dropWhile_append_of_pos hrev]
  simp [List.dropWhile_cons, isSpace_minus]

/-- C3: on the empty string, on a string of white space only, and on `--` with any amount of
white space before and after it, `sanitizeMoneySymbolsAndParseToFloat64` returns 0 and does
not panic. -/
theorem C3_blank_or_placeholder_is_zero (s : Str)
    (h : s = [] ∨ (∀ c ∈ s, isSpace c = true) ∨
      ∃ pre post, (∀ c ∈ pre, isSpace c = true) ∧ (∀ c ∈ post, isSpace c = true) ∧
        s = pre ++ "--".toList ++ post) :
    sanitizeMoneySymbolsAndParseToFloat64 s = .ok Float64.zero := by
  have ht : trimSpace s = "--".toList ∨ trimSpace s = [] := by
    rcases h with h | h | ⟨pre, post, hpre, hpost, rfl⟩
    · subst h
      exact Or.inr rfl
    · exact Or.inr (trimSpace_of_blank s h)
    · exact Or.inl (trimSpace_placeholder pre post hpre hpost)
  simp only [sanitizeMoneySymbolsAndParseToFloat64]
  rw [if_pos ht]

theorem C3_blank_or_placeholder_is_zero_witness :
    sanitizeMoneySymbolsAndParseToFloat64 [] = .ok Float64.zero ∧
    sanitizeMoneySymbolsAndParseToFloat64 " \t\u00a0 ".toList = .ok Float64.zero ∧
    sanitizeMoneySymbolsAndParseToFloat64 ("\t ".toList ++ "--".toList ++ "  \r".toList) =
      .ok Float64.zero :=
  ⟨C3_blank_or_placeholder_is_zero [] (Or.inl rfl),
   C3_blank_or_placeholder_is_zero _ (Or.inr (Or.inl (by decide))),
   C3_blank_or_placeholder_is_zero _
     (Or.inr (Or.inr ⟨"\t ".toList, "  \r".toList, by decide, by decide, rfl⟩))⟩

/-! ## What the regular expression finds -/

theorem matchNumber_of_not_digit (c : Char) (r : Str) (h : isDigit c = false) :
    matchNumber (c :: r) = none := by
  simp [matchNumber, List.takeWhile_cons, h]

theorem matchNumber_nil : matchNumber [] = none := rfl

theorem matchDollar_nil : matchDollar [] = none := rfl

theorem isDigit_dollar : isDigit '$' = false := by decide

theorem isDigit_minus : isDigit '-' = false := by decide

theorem isDigit_dot : isDigit '.' = false := by decide

theorem isDigit_comma : isDigit ',' = false := by decide

theorem matchDollar_cons_dollar (r : Str) :
    matchDollar ('$' :: r) = (matchNumber r).map (fun g => ('$' :: g, g)) := by
  simp only [matchDollar, matchNumber_of_not_digit '$' r isDigit_dollar]
  cases matchNumber r <;> rfl

theorem matchDollar_cons_other (c : Char) (r : Str) (h : c ≠ '$') :
    matchDollar (c :: r) = (matchNumber (c :: r)).map (fun g => (g, g)) := by
  unfold matchDollar
  split
  · rename_i heq
    simp at heq
    exact absurd heq.1 h
  · rfl

theorem isDigit_not_space (c : Char) (h : isDigit c = true) : isSpace c = false := by
  simp only [isDigit, Bool.and_eq_true, decide_eq_true_eq] at h
  have h0 : '0'.toNat = 48 := rfl
  have h9 : '9'.toNat = 57 := rfl
  rw [h0, h9] at h
  simp only [isSpace, Bool.or_eq_false_iff, Bool.and_eq_false_iff, beq_eq_false_iff_ne,
    decide_eq_false_iff_not]
  omega

theorem isDigit_not_comma (c : Char) (h : isDigit c = true) : c ≠ ',' := by
  rintro rfl
  exact absurd h (by decide)

theorem matchNumber_some_head (s : Str) (g : Str) (h : matchNumber s = some g) :
    ∃ c r, s = c :: r ∧ isDigit c = true := by
  cases s with
  | nil => simp [matchNumber] at h
  | cons c r =>
    cases hc : isDigit c with
    | true => exact ⟨c, r, rfl, hc⟩
    | false => simp [matchNumber_of_not_digit c r hc] at h

theorem matchNumber_some_dropWhile (s : Str) (g : Str) (h : matchNumber s = some g) :
    s.dropWhile (fun c => !isDigit c) = s := by
  obtain ⟨c, r, rfl, hc⟩ := matchNumber_some_head s g h
  simp [List.dropWhile_cons, hc]

theorem matchDollar_group (s w g : Str) (h : matchDollar s = some (w, g)) :
    matchNumber (s.dropWhile (fun c => !isDigit c)) = some g := by
  cases s with
  | nil => simp [matchDollar_nil] at h
  | cons c r =>
    by_cases hc : c = '$'
    · subst hc
      rw [matchDollar_cons_dollar] at h
      cases hn : matchNumber r with
      | none => simp [hn] at h
      | some g1 =>
        simp [hn] at h
        rw [List.dropWhile_cons]
        simp only [isDigit_dollar, Bool.not_false, if_true]
        rw [matchNumber_some_dropWhile r g1 hn, hn, h.2]
    · rw [matchDollar_cons_other c r hc] at h
      cases hn : matchNumber (c :: r) with
      | none => simp [hn] at h
      | some g1 =>
        simp [hn] at h
        rw [matchNumber_some_dropWhile _ g1 hn, hn, h.2]

theorem matchHere_group (s w g : Str) (h : matchHere s = some (w, g)) :
    matchNumber (s.dropWhile (fun c => !isDigit c)) = some g := by
  cases s with
  | nil => simp [matchHere, matchDollar_nil] at h
  | cons c r =>
    by_cases hc : c = '-'
    · subst hc
      have hskip : matchDollar ('-' :: r) = none := by
        rw [matchDollar_cons_other '-' r (by decide),
          matchNumber_of_not_digit '-' r isDigit_minus]
        rfl
      simp only [matchHere, hskip] at h
      cases hd : matchDollar r with
      | none => simp [hd] at h
      | some wg =>
        obtain ⟨w1, g1⟩ := wg
        simp [hd] at h
        rw [List.dropWhile_cons]
        simp only [isDigit_minus, Bool.not_false, if_true]
        rw [matchDollar_group r w1 g1 hd, h.2]
    · have : matchHere (c :: r) = matchDollar (c :: r) := by
        unfold matchHere
        split
        · rename_i heq
          simp at heq
          exact absurd heq.1 hc
        · rfl
      rw [this] at h
      exact matchDollar_group _ w g h

theorem matchHere_none_head (c : Char) (r : Str) (h : matchHere (c :: r) = none) :
    isDigit c = false := by
  cases hc : isDigit c with
  | false => rfl
  | true =>
    exfalso
    have h1 : c ≠ '-' := by
      rintro rfl
      exact absurd hc (by decide)
    have h2 : c ≠ '$' := by
      rintro rfl
      exact absurd hc (by decide)
    have h3 : matchHere (c :: r) = matchDollar (c :: r) := by
      unfold matchHere
      split
      · rename_i heq
        simp at heq
        exact absurd heq.1 h1
      · rfl
    rw [h3, matchDollar_cons_other c r h2] at h
    cases hn : matchNumber (c :: r) with
    | some g => simp [hn] at h
    | none =>
      simp only [matchNumber, List.takeWhile_cons, hc, if_true] at hn
      rw [if_neg (by simp)] at hn
      split at hn
      · split at hn <;> simp at hn
      · simp at hn

/-- The regular expression finds nothing exactly when no numeric group starts at the
leftmost digit, and otherwise its capture group is the group that starts there. -/
theorem findStringSubmatch_spec (s : Str) :
    (matchNumber (s.dropWhile (fun c => !isDigit c)) = none → findStringSubmatch s = []) ∧
    (∀ g, matchNumber (s.dropWhile (fun c => !isDigit c)) = some g →
      ∃ w, findStringSubmatch s = [w, g]) := by
  induction s with
  | nil => simp [findStringSubmatch, matchNumber_nil]
  | cons c r ih =>
    cases hm : matchHere (c :: r) with
    | some wg =>
      obtain ⟨w, g⟩ := wg
      have hg := matchHere_group _ w g hm
      simp only [findStringSubmatch, hm, hg]
      simp
    | none =>
      have hc := matchHere_none_head c r hm
      have hd : (c :: r).dropWhile (fun c => !isDigit c) =
          r.dropWhile (fun c => !isDigit c) := by
        simp [List.dropWhile_cons, hc]
      simp only [findStringSubmatch, hm, hd]
      exact ih

/-! ## The sanitizer in terms of the first numeric run -/

theorem firstNumericRun_none_of_no_digit (s : Str) (h : ∀ c ∈ s, isDigit c = false) :
    firstNumericRun s = none := by
  have hd : s.dropWhile (fun c => !isDigit c) = [] :=
    List.dropWhile_eq_nil_iff.2 (fun c hc => by simp [h c hc])
  simp [firstNumericRun, hd]

theorem dropWhile_not_digit_head (s : Str) (c : Char) (r : Str)
    (h : s.dropWhile (fun c => !isDigit c) = c :: r) : isDigit c = true := by
  induction s with
  | nil => simp at h
  | cons a l ih =>
    rw [List.dropWhile_cons] at h
    cases ha : isDigit a with
    | true =>
      simp [ha] at h
      rw [← h.1]
      exact ha
    | false =>
      simp [ha] at h
      exact ih h

theorem firstNumericRun_some_of_digit (s : Str) (h : ∃ c ∈ s, isDigit c = true) :
    ∃ ip fp, firstNumericRun s = some (ip, fp) := by
  obtain ⟨c, hc, hd⟩ := h
  cases ht : s.dropWhile (fun c => !isDigit c) with
  | nil =>
    have := List.dropWhile_eq_nil_iff.1 ht c hc
    simp [hd] at this
  | cons a r =>
    have ha := dropWhile_not_digit_head s a r ht
    simp only [firstNumericRun, ht, List.takeWhile_cons, ha, if_true]
    rw [if_neg (by simp)]
    split
    · exact ⟨_, _, rfl⟩
    · exact ⟨_, _, rfl⟩

/-- The group the pattern captures is the first numeric run, written with its dot when the
run has a fraction. -/
theorem matchNumber_of_run (s : Str) :
    (firstNumericRun s = none → matchNumber (s.dropWhile (fun c => !isDigit c)) = none) ∧
    (∀ ip fp, firstNumericRun s = some (ip, fp) →
      ip ≠ [] ∧ (∀ c ∈ ip, isDigit c = true) ∧ (∀ c ∈ fp, isDigit c = true) ∧
      matchNumber (s.dropWhile (fun c => !isDigit c)) =
        some (if fp = [] then ip else ip ++ '.' :: fp)) := by
  simp only [firstNumericRun, matchNumber]
  by_cases hip : (s.dropWhile (fun c => !isDigit c)).takeWhile isDigit = []
  · simp [hip]
  · simp only [hip, if_false]
    have hall : ∀ c ∈ (s.dropWhile (fun c => !isDigit c)).takeWhile isDigit,
        isDigit c = true := fun c hc => List.mem_takeWhile_imp hc
    split
    · rename_i r heq
      refine ⟨by simp, ?_⟩
      intro ip fp h
      simp only [Option.some.injEq, Prod.mk.injEq] at h
      obtain ⟨h1, h2⟩ := h
      subst h1 h2
      exact ⟨hip, hall, fun c hc => List.mem_takeWhile_imp hc, by split <;> rfl⟩
    · refine ⟨by simp, ?_⟩
      intro ip fp h
      simp only [Option.some.injEq, Prod.mk.injEq] at h
      obtain ⟨h1, h2⟩ := h
      subst h1 h2
      exact ⟨hip, hall, by simp, by simp⟩

/-- The float parser on a numeric run: the decimal value of the digits, scaled by the number
of fraction digits, rounded to `float64`. -/
theorem parseFloat_of_run (ip fp : Str) (hne : ip ≠ []) (hip : ∀ c ∈ ip, isDigit c = true)
    (hfp : ∀ c ∈ fp, isDigit c = true) :
    parseFloat (if fp = [] then ip else ip ++ '.' :: fp) =
      match roundToFloat64 (decimalNat (ip ++ fp) * Float64.unit) (10 ^ fp.length) with
      | some m => .ok (.finite false m)
      | none => .error .errRange := by
  have hall : (fp.all isDigit) = true := by simpa using hfp
  have hne2 : (ip ++ fp != []) = true := by simp [hne]
  by_cases hf : fp = []
  · subst hf
    have h1 : ip.takeWhile isDigit = ip := List.takeWhile_eq_self_iff.2 hip
    have h2 : ip.dropWhile isDigit = [] := List.dropWhile_eq_nil_iff.2 hip
    simp only [parseFloat, if_true, h1, h2]
    simp [hne]
  · have h1 : (ip ++ '.' :: fp).takeWhile isDigit = ip := by
      rw [List.takeWhile_append_of_pos hip]
      simp [List.takeWhile_cons, isDigit_dot]
    have h2 : (ip ++ '.' :: fp).dropWhile isDigit = '.' :: fp := by
      rw [List.dropWhile_append_of_pos hip]
      simp [List.dropWhile_cons, isDigit_dot]
    simp only [parseFloat, if_neg hf, h1, h2, hall, hne2, Bool.and_self, if_true]

/-- When the trimmed, comma-stripped cell has no numeric run, the sanitizer stops with the
"No number found" panic. -/
theorem sanitize_of_no_run (s : Str) (h1 : trimSpace s ≠ "--".toList) (h2 : trimSpace s ≠ [])
    (h : firstNumericRun (removeCommas (trimSpace s)) = none) :
    sanitizeMoneySymbolsAndParseToFloat64 s = .error .noNumberFound := by
  have hf := (findStringSubmatch_spec (removeCommas (trimSpace s))).1
    ((matchNumber_of_run _).1 h)
  simp only [sanitizeMoneySymbolsAndParseToFloat64]
  rw [if_neg (by tauto), hf]
  simp

/-- When the trimmed, comma-stripped cell has a numeric run, the sanitizer returns the
rounded value of the run, negative exactly when that text begins with a minus sign, or stops
with the "Parse error" panic when the value is out of range. -/
theorem sanitize_of_run (s : Str) (h1 : trimSpace s ≠ "--".toList) (h2 : trimSpace s ≠ [])
    (ip fp : Str) (h : firstNumericRun (removeCommas (trimSpace s)) = some (ip, fp)) :
    sanitizeMoneySymbolsAndParseToFloat64 s =
      match roundToFloat64 (decimalNat (ip ++ fp) * Float64.unit) (10 ^ fp.length) with
      | some m =>
        .ok (.finite (decide ((removeCommas (trimSpace s)).head? = some '-')) m)
      | none => .error .parseError := by
  obtain ⟨hne, hip, hfp, hg⟩ := (matchNumber_of_run _).2 ip fp h
  obtain ⟨w, hf⟩ := (findStringSubmatch_spec (removeCommas (trimSpace s))).2 _ hg
  have hp := parseFloat_of_run ip fp hne hip hfp
  simp only [sanitizeMoneySymbolsAndParseToFloat64]
  rw [if_neg (by tauto), hf]
  cases hs : removeCommas (trimSpace s) with
  | nil => simp [hs, findStringSubmatch] at hf
  | cons c r =>
    simp only [List.length_cons, List.length_nil, index_cons_succ, index_cons_zero, bind,
      Except.bind, hp]
    cases roundToFloat64 (decimalNat (ip ++ fp) * Float64.unit) (10 ^ fp.length) with
    | none => simp
    | some m =>
      by_cases hc : c = '-'
      · simp [hc, Float64.negate]
      · simp [hc]

theorem trimSpace_decomp (s : Str) :
    ∃ pre post, (∀ c ∈ pre, isSpace c = true) ∧ (∀ c ∈ post, isSpace c = true) ∧
      s = pre ++ trimSpace s ++ post := by
  refine ⟨s.takeWhile isSpace, (((s.dropWhile isSpace).reverse).takeWhile isSpace).reverse,
    fun c hc => List.mem_takeWhile_imp hc,
    fun c hc => List.mem_takeWhile_imp (List.mem_reverse.1 hc), ?_⟩
  have h1 : trimSpace s ++ (((s.dropWhile isSpace).reverse).takeWhile isSpace).reverse =
      s.dropWhile isSpace := by
    rw [trimSpace, ← List.reverse_append, List.takeWhile_append_dropWhile,
      List.reverse_reverse]
  rw [List.append_assoc, h1, List.takeWhile_append_dropWhile]

theorem takeWhile_digit_append (x post : Str) (hpost : ∀ c ∈ post, isDigit c = false) :
    (x ++ post).takeWhile isDigit = x.takeWhile isDigit := by
  induction x with
  | nil =>
    cases post with
    | nil => rfl
    | cons a l => simp [List.takeWhile_cons, hpost a (by simp)]
  | cons a l ih =>
    simp only [List.cons_append, List.takeWhile_cons, ih]

theorem dropWhile_digit_append (x post : Str) (hpost : ∀ c ∈ post, isDigit c = false) :
    (x ++ post).dropWhile isDigit = x.dropWhile isDigit ++ post := by
  induction x with
  | nil =>
    cases post with
    | nil => rfl
    | cons a l => simp [List.dropWhile_cons, hpost a (by simp)]
  | cons a l ih =>
    simp only [List.cons_append, List.dropWhile_cons, ih]
    split <;> rfl

/-- Text without digits and dots around a text does not change its first numeric run. -/
theorem firstNumericRun_pad (pre m post : Str) (hpre : ∀ c ∈ pre, isDigit c = false)
    (hpost : ∀ c ∈ post, isDigit c = false) (hdot : ∀ c ∈ post, c ≠ '.') :
    firstNumericRun (pre ++ m ++ post) = firstNumericRun m := by
  by_cases hm : ∀ c ∈ m, isDigit c = false
  · rw [firstNumericRun_none_of_no_digit m hm]
    apply firstNumericRun_none_of_no_digit
    intro c hc
    simp only [List.mem_append] at hc
    rcases hc with (hc | hc) | hc
    · exact hpre c hc
    · exact hm c hc
    · exact hpost c hc
  · have hpre2 : ∀ c ∈ pre, (fun c => !isDigit c) c = true := fun c hc => by
      simp [hpre c hc]
    have ht : (m.dropWhile (fun c => !isDigit c)) ≠ [] := by
      intro h0
      apply hm
      intro c hc
      have := List.dropWhile_eq_nil_iff.1 h0 c hc
      simpa using this
    have hd : (pre ++ m ++ post).dropWhile (fun c => !isDigit c) =
        m.dropWhile (fun c => !isDigit c) ++ post := by
      rw [List.append_assoc, List.dropWhile_append_of_pos hpre2, List.dropWhile_append]
      simp [ht]
    simp only [firstNumericRun, hd, takeWhile_digit_append _ post hpost,
      dropWhile_digit_append _ post hpost]
    by_cases hip : (m.dropWhile (fun c => !isDigit c)).takeWhile isDigit = []
    · simp [hip]
    · simp only [hip, if_false]
      cases hr : (m.dropWhile (fun c => !isDigit c)).dropWhile isDigit with
      | nil =>
        cases post with
        | nil => rfl
        | cons a l =>
          have ha : a ≠ '.' := hdot a (by simp)
          simp only [List.nil_append]
          split
          · rename_i heq
            simp at heq
            exact absurd heq.1 ha
          · rfl
      | cons a l =>
        by_cases ha : a = '.'
        · subst ha
          simp [takeWhile_digit_append _ post hpost]
        · simp only [List.cons_append]
          split
          · rename_i heq
            simp at heq
            exact absurd heq.1 ha
          · split
            · rename_i heq
              simp at heq
              exact absurd heq.1 ha
            · rfl

theorem isSpace_not_digit (c : Char) (h : isSpace c = true) : isDigit c = false := by
  cases hd : isDigit c with
  | false => rfl
  | true => simp [isDigit_not_space c hd] at h

theorem isSpace_not_dot (c : Char) (h : isSpace c = true) : c ≠ '.' := by
  rintro rfl
  exact absurd h (by decide)

/-- Trimming white space does not change the first numeric run of the comma-stripped text. -/
theorem firstNumericRun_trim (s : Str) :
    firstNumericRun (removeCommas (trimSpace s)) = firstNumericRun (removeCommas s) := by
  obtain ⟨pre, post, hpre, hpost, hs⟩ := trimSpace_decomp s
  have h : removeCommas s =
      removeCommas pre ++ removeCommas (trimSpace s) ++ removeCommas post := by
    conv_lhs => rw [hs]
    simp [removeCommas]
  have hsub1 : ∀ c ∈ removeCommas pre, c ∈ pre := fun c hc => (List.mem_filter.1 hc).1
  have hsub2 : ∀ c ∈ removeCommas post, c ∈ post := fun c hc => (List.mem_filter.1 hc).1
  rw [h]
  exact (firstNumericRun_pad _ _ _ (fun c hc => isSpace_not_digit c (hpre c (hsub1 c hc)))
    (fun c hc => isSpace_not_digit c (hpost c (hsub2 c hc)))
    (fun c hc => isSpace_not_dot c (hpost c (hsub2 c hc)))).symm

theorem trimSpace_keeps_digit (s : Str) (c : Char) (hc : c ∈ s) (hd : isDigit c = true) :
    c ∈ trimSpace s := by
  obtain ⟨pre, post, hpre, hpost, hs⟩ := trimSpace_decomp s
  rw [hs] at hc
  simp only [List.mem_append] at hc
  rcases hc with (hc | hc) | hc
  · exact absurd (hpre c hc) (by simp [isDigit_not_space c hd])
  · exact hc
  · exact absurd (hpost c hc) (by simp [isDigit_not_space c hd])

theorem trimSpace_subset (s : Str) (c : Char) (hc : c ∈ trimSpace s) : c ∈ s := by
  obtain ⟨pre, post, _, _, hs⟩ := trimSpace_decomp s
  rw [hs]
  simp [hc]

/-! ## C4: the value of a cell with a digit -/

/-- C4 as stated fails: `10^309`, written as a 1 followed by 309 zeros, is trimmed text other
than the empty string and `--`, contains a digit, and yet the sanitizer returns no value on
it: it stops with the "Parse error" panic. -/
theorem C4_counterexample_out_of_range :
    trimSpace hugeNumber ≠ [] ∧ trimSpace hugeNumber ≠ "--".toList ∧
    (∃ c ∈ hugeNumber, isDigit c = true) ∧
    sanitizeMoneySymbolsAndParseToFloat64 hugeNumber = .error .parseError := by
  refine ⟨by decide!, by decide!, ⟨'1', List.mem_cons_self _ _, by decide⟩, by decide!⟩

/-- C4 (amended): for every input that contains a digit, the comma-stripped input has a first
numeric run `ip.fp`; when its decimal value `decimalNat (ip ++ fp) / 10 ^ fp.length` rounds to
a finite `float64`, `sanitizeMoneySymbolsAndParseToFloat64` returns that `float64`, negative
exactly when the trimmed, comma-stripped input begins with `-`, and when the value rounds
beyond the `float64` range it stops with the "Parse error" panic. In particular `$1,234.50`
yields 1234.50 and `-$45.00` yields -45.00. -/
theorem C4_value_of_first_numeric_run :
    (∀ s : Str, (∃ c ∈ s, isDigit c = true) →
      ∃ ip fp, firstNumericRun (removeCommas s) = some (ip, fp) ∧
        sanitizeMoneySymbolsAndParseToFloat64 s =
          match roundToFloat64 (decimalNat (ip ++ fp) * Float64.unit) (10 ^ fp.length) with
          | some m =>
            .ok (.finite (decide ((removeCommas (trimSpace s)).head? = some '-')) m)
          | none => .error .parseError) ∧
    sanitizeMoneySymbolsAndParseToFloat64 "$1,234.50".toList =
      .ok (.finite false (123450 * Float64.unit / 100)) ∧
    sanitizeMoneySymbolsAndParseToFloat64 "-$45.00".toList =
      .ok (.finite true (45 * Float64.unit)) := by
  refine ⟨fun s h => ?_, by decide!, by decide!⟩
  obtain ⟨c, hc, hd⟩ := h
  have hct : c ∈ trimSpace s := trimSpace_keeps_digit s c hc hd
  have h2 : trimSpace s ≠ [] := fun h0 => by simp [h0] at hct
  have h1 : trimSpace s ≠ "--".toList := fun h0 => by
    rw [h0] at hct
    simp at hct
    subst hct
    exact absurd hd (by decide)
  have hcr : c ∈ removeCommas s := by
    simp only [removeCommas, List.mem_filter, bne_iff_ne, ne_eq]
    exact ⟨hc, isDigit_not_comma c hd⟩
  obtain ⟨ip, fp, hrun⟩ := firstNumericRun_some_of_digit (removeCommas s) ⟨c, hcr, hd⟩
  refine ⟨ip, fp, hrun, ?_⟩
  rw [← firstNumericRun_trim] at hrun
  exact sanitize_of_run s h1 h2 ip fp hrun

theorem C4_value_of_first_numeric_run_witness :
    ∃ ip fp, firstNumericRun (removeCommas " ($2,500.75) ".toList) = some (ip, fp) ∧
      sanitizeMoneySymbolsAndParseToFloat64 " ($2,500.75) ".toList =
        match roundToFloat64 (decimalNat (ip ++ fp) * Float64.unit) (10 ^ fp.length) with
        | some m =>
          .ok (.finite
            (decide ((removeCommas (trimSpace " ($2,500.75) ".toList)).head? = some '-')) m)
        | none => .error .parseError :=
  C4_value_of_first_numeric_run.1 " ($2,500.75) ".toList ⟨'2', by decide, by decide⟩

/-! ## C5: the "No number found" panic -/

/-- C5: for every input whose trimmed form is neither empty nor `--` and which has no ASCII
digit once its commas are removed, `sanitizeMoneySymbolsAndParseToFloat64` returns no value:
it stops with the "No number found" panic; so it does on `abc`, `$`, `-`, `,` and `-,-`. -/
theorem C5_no_digit_aborts :
    (∀ s : Str, trimSpace s ≠ [] → trimSpace s ≠ "--".toList →
      (∀ c ∈ removeCommas s, isDigit c = false) →
      sanitizeMoneySymbolsAndParseToFloat64 s = .error .noNumberFound) ∧
    (∀ s ∈ ["abc", "$", "-", ",", "-,-"],
      sanitizeMoneySymbolsAndParseToFloat64 s.toList = .error .noNumberFound) := by
  refine ⟨fun s h1 h2 h3 => ?_, by decide⟩
  apply sanitize_of_no_run s h2 h1
  apply firstNumericRun_none_of_no_digit
  intro c hc
  apply h3
  simp only [removeCommas, List.mem_filter] at hc ⊢
  exact ⟨trimSpace_subset s c hc.1, hc.2⟩

theorem C5_no_digit_aborts_witness :
    sanitizeMoneySymbolsAndParseToFloat64 " n/a, ".toList = .error .noNumberFound :=
  C5_no_digit_aborts.1 " n/a, ".toList (by decide) (by decide) (by decide)

/-! ## C6: the date parser -/

theorem monthOfNat_none (n : Nat) (h : ¬(1 ≤ n ∧ n ≤ 12)) : Month.ofNat? n = none := by
  rcases n with _ | _ | _ | _ | _ | _ | _ | _ | _ | _ | _ | _ | _ | n
  all_goals first | rfl | (exfalso; omega)

theorem monthOfNat_some (n : Nat) (h : 1 ≤ n ∧ n ≤ 12) (year : Nat) :
    ∃ m, Month.ofNat? n = some m ∧ m.toNat = n ∧ daysIn m year = monthLength n year := by
  rcases n with _ | _ | _ | _ | _ | _ | _ | _ | _ | _ | _ | _ | _ | n
  all_goals first
    | (exfalso; omega)
    | (refine ⟨_, rfl, rfl, ?_⟩; simp [daysIn, monthLength, isLeap])

theorem getnum_eq_some (s : Str) (n : Nat) (r : Str) :
    getnum s = some (n, r) ↔
      ∃ a b, s = a :: b :: r ∧ isDigit a = true ∧ isDigit b = true ∧
        n = digitVal a * 10 + digitVal b := by
  rcases s with _ | ⟨a, _ | ⟨b, l⟩⟩
  · simp [getnum]
  · simp [getnum]
  · simp only [getnum]
    split
    · rename_i h
      simp only [Bool.and_eq_true] at h
      simp only [Option.some.injEq, Prod.mk.injEq, List.cons.injEq]
      constructor
      · rintro ⟨h1, h2⟩
        exact ⟨a, b, ⟨rfl, rfl, h2⟩, h.1, h.2, h1.symm⟩
      · rintro ⟨a1, b1, ⟨rfl, rfl, rfl⟩, _, _, h3⟩
        exact ⟨h3.symm, rfl⟩
    · rename_i h
      constructor
      · intro h1
        simp at h1
      · rintro ⟨a1, b1, h1, h2, h3, _⟩
        simp only [List.cons.injEq] at h1
        obtain ⟨rfl, rfl, _⟩ := h1
        simp [h2, h3] at h

theorem skipSlash_eq_some (s r : Str) : skipSlash s = some r ↔ s = '/' :: r := by
  unfold skipSlash
  split
  · simp
  · rename_i h
    constructor
    · intro h1
      simp at h1
    · intro h1
      exact absurd h1 (h r)

theorem getyear_eq_some (s : Str) (n : Nat) (r : Str) :
    getyear s = some (n, r) ↔
      ∃ a b c d, s = a :: b :: c :: d :: r ∧ isDigit a = true ∧ isDigit b = true ∧
        isDigit c = true ∧ isDigit d = true ∧ n = decimalNat [a, b, c, d] := by
  unfold getyear
  split
  · rename_i a b c d l
    split
    · rename_i h
      simp only [Bool.and_eq_true] at h
      simp only [Option.some.injEq, Prod.mk.injEq, List.cons.injEq]
      constructor
      · rintro ⟨h1, h2⟩
        exact ⟨a, b, c, d, ⟨rfl, rfl, rfl, rfl, h2⟩, h.1.1.1, h.1.1.2, h.1.2, h.2, h1.symm⟩
      · rintro ⟨a1, b1, c1, d1, ⟨rfl, rfl, rfl, rfl, rfl⟩, _, _, _, _, h3⟩
        exact ⟨h3.symm, rfl⟩
    · rename_i h
      constructor
      · intro h1
        simp at h1
      · rintro ⟨a1, b1, c1, d1, h1, h2, h3, h4, h5, _⟩
        simp only [List.cons.injEq] at h1
        obtain ⟨rfl, rfl, rfl, rfl, _⟩ := h1
        simp [h2, h3, h4, h5] at h
  · rename_i h
    constructor
    · intro h1
      simp at h1
    · rintro ⟨a, b, c, d, h1, _⟩
      exact absurd h1 (h a b c d r)

/-- What `time.Parse` accepts, character by character. -/
theorem timeParse_eq_some (s : Str) (t : Time) :
    timeParse s = some t ↔
      ∃ m1 m2 d1 d2 y1 y2 y3 y4, s = [m1, m2, '/', d1, d2, '/', y1, y2, y3, y4] ∧
        (isDigit m1 = true ∧ isDigit m2 = true) ∧ (isDigit d1 = true ∧ isDigit d2 = true) ∧
        (isDigit y1 = true ∧ isDigit y2 = true ∧ isDigit y3 = true ∧ isDigit y4 = true) ∧
        Month.ofNat? (digitVal m1 * 10 + digitVal m2) = some t.month ∧
        1 ≤ digitVal d1 * 10 + digitVal d2 ∧
        digitVal d1 * 10 + digitVal d2 ≤ daysIn t.month (decimalNat [y1, y2, y3, y4]) ∧
        t.day = digitVal d1 * 10 + digitVal d2 ∧ t.year = decimalNat [y1, y2, y3, y4] := by
  simp only [timeParse, bind, Option.bind_eq_some, Prod.exists, getnum_eq_some,
    skipSlash_eq_some, getyear_eq_some]
  constructor
  · rintro ⟨month, r1, ⟨m1, m2, rfl, hm1, hm2, rfl⟩, r2, rfl, day, r3,
      ⟨d1, d2, rfl, hd1, hd2, rfl⟩, r4, rfl, year, r5,
      ⟨y1, y2, y3, y4, rfl, hy1, hy2, hy3, hy4, rfl⟩, h⟩
    split at h
    · simp at h
    · rename_i hr
      simp only [ne_eq, not_not] at hr
      subst hr
      split at h
      · simp at h
      · rename_i m hm
        split at h
        · simp at h
        · rename_i hday
          simp only [Option.some.injEq] at h
          subst h
          exact ⟨m1, m2, d1, d2, y1, y2, y3, y4, rfl, ⟨hm1, hm2⟩, ⟨hd1, hd2⟩,
            ⟨hy1, hy2, hy3, hy4⟩, hm, by omega, by simp only; omega, rfl, rfl⟩
  · rintro ⟨m1, m2, d1, d2, y1, y2, y3, y4, rfl, ⟨hm1, hm2⟩, ⟨hd1, hd2⟩,
      ⟨hy1, hy2, hy3, hy4⟩, hm, hlo, hhi, hday, hyear⟩
    refine ⟨_, _, ⟨m1, m2, rfl, hm1, hm2, rfl⟩, _, rfl, _, _, ⟨d1, d2, rfl, hd1, hd2, rfl⟩,
      _, rfl, _, _, ⟨y1, y2, y3, y4, rfl, hy1, hy2, hy3, hy4, rfl⟩, ?_⟩
    rcases t with ⟨ty, tm, td⟩
    simp only at hm hhi hday hyear
    subst hday hyear
    simp only [ne_eq, not_true_eq_false, if_false, hm]
    rw [if_neg (by omega)]

/-- The texts `time.Parse` accepts are exactly the valid strict dates. -/
theorem isStrictDate_iff (s : Str) : isStrictDate s = true ↔ ∃ t, timeParse s = some t := by
  constructor
  · intro h
    unfold isStrictDate at h
    split at h
    · rename_i m1 m2 s1 d1 d2 s2 y1 y2 y3 y4
      simp only [List.all_cons, List.all_nil, Bool.and_true, Bool.and_eq_true, beq_iff_eq,
        decide_eq_true_eq] at h
      obtain ⟨⟨⟨⟨⟨⟨hd, hs1⟩, hs2⟩, hlo⟩, hhi⟩, hdlo⟩, hdhi⟩ := h
      obtain ⟨hm1, hm2, hd1, hd2, hy1, hy2, hy3, hy4⟩ := hd
      subst hs1 hs2
      obtain ⟨m, hm, _, hlen⟩ := monthOfNat_some _ ⟨hlo, hhi⟩ (decimalNat [y1, y2, y3, y4])
      refine ⟨⟨decimalNat [y1, y2, y3, y4], m, digitVal d1 * 10 + digitVal d2⟩, ?_⟩
      rw [timeParse_eq_some]
      exact ⟨m1, m2, d1, d2, y1, y2, y3, y4, rfl, ⟨hm1, hm2⟩, ⟨hd1, hd2⟩,
        ⟨hy1, hy2, hy3, hy4⟩, hm, hdlo, by simp only; omega, rfl, rfl⟩
    · simp at h
  · rintro ⟨t, h⟩
    rw [timeParse_eq_some] at h
    obtain ⟨m1, m2, d1, d2, y1, y2, y3, y4, rfl, ⟨hm1, hm2⟩, ⟨hd1, hd2⟩,
      ⟨hy1, hy2, hy3, hy4⟩, hm, hlo, hhi, _, _⟩ := h
    have hrange : 1 ≤ digitVal m1 * 10 + digitVal m2 ∧ digitVal m1 * 10 + digitVal m2 ≤ 12 := by
      by_contra hc
      rw [monthOfNat_none _ hc] at hm
      simp at hm
    obtain ⟨m, hmm, _, hlen⟩ := monthOfNat_some _ hrange (decimalNat [y1, y2, y3, y4])
    rw [hm] at hmm
    simp only [Option.some.injEq] at hmm
    subst hmm
    simp only [isStrictDate, List.all_cons, List.all_nil, Bool.and_true, Bool.and_eq_true,
      beq_iff_eq, decide_eq_true_eq]
    refine ⟨⟨⟨⟨⟨⟨⟨hm1, hm2, hd1, hd2, hy1, hy2, hy3, hy4⟩, trivial⟩, trivial⟩, hrange.1⟩,
      hrange.2⟩, hlo⟩, ?_⟩
    omega

/-- C6: `parseTime` maps the exact text `Unknown` to the zero date (January 1 of year 1) and
`01/15/2024` to January 15, 2024; on every other text that is not a valid date in strict
`MM/DD/YYYY` form, such as `13/40/2024`, it stops with a panic; and on every valid strict date
it returns. -/
theorem C6_parseTime_contract :
    parseTime "Unknown".toList = .ok Time.zero ∧
    Time.zero = ⟨1, .January, 1⟩ ∧
    parseTime "01/15/2024".toList = .ok ⟨2024, .January, 15⟩ ∧
    (∀ s : Str, s ≠ "Unknown".toList → isStrictDate s = false →
      parseTime s = .error .cannotParseTime) ∧
    parseTime "13/40/2024".toList = .error .cannotParseTime ∧
    (∀ s : Str, isStrictDate s = true → ∃ t, parseTime s = .ok t) := by
  refine ⟨by decide, rfl, by decide, fun s h1 h2 => ?_, by decide, fun s h => ?_⟩
  · have hnone : timeParse s = none := by
      cases ht : timeParse s with
      | none => rfl
      | some t =>
        have := (isStrictDate_iff s).2 ⟨t, ht⟩
        simp [h2] at this
    unfold parseTime
    rw [if_neg h1, hnone]
  · obtain ⟨t, ht⟩ := (isStrictDate_iff s).1 h
    by_cases hu : s = "Unknown".toList
    · exact ⟨Time.zero, by unfold parseTime; rw [if_pos hu]⟩
    · exact ⟨t, by unfold parseTime; rw [if_neg hu, ht]⟩

theorem C6_parseTime_contract_witness :
    parseTime "2/30/2024".toList = .error .cannotParseTime ∧
    parseTime "02/30/2024".toList = .error .cannotParseTime ∧
    parseTime "02/29/2023".toList = .error .cannotParseTime ∧
    parseTime "unknown".toList = .error .cannotParseTime ∧
    ∃ t, parseTime "02/29/2024".toList = .ok t :=
  ⟨C6_parseTime_contract.2.2.2.1 _ (by decide) (by decide),
   C6_parseTime_contract.2.2.2.1 _ (by decide) (by decide),
   C6_parseTime_contract.2.2.2.1 _ (by decide) (by decide),
   C6_parseTime_contract.2.2.2.1 _ (by decide) (by decide),
   C6_parseTime_contract.2.2.2.2.2 _ (by decide)⟩

/-! ## C7: the quarter of a date -/

theorem month_toNat_range (m : Month) : 1 ≤ m.toNat ∧ m.toNat ≤ 12 := by
  cases m <;> simp [Month.toNat]

theorem makeQuarters_length (n : Nat) : (makeQuarters n).length = n := by
  induction n with
  | zero => rfl
  | succ n ih => simp [makeQuarters, ih]

theorem determineQuarter_eq (date : Time) :
    determineQuarterFromDate date = (date.Month.toNat - 1) / 3 := by
  have h := month_toNat_range date.Month
  unfold determineQuarterFromDate
  split
  · omega
  · split
    · omega
    · split <;> omega

theorem determineQuarter_lt (date : Time) : determineQuarterFromDate date < 4 := by
  have h := month_toNat_range date.Month
  rw [determineQuarter_eq]
  omega

/-- C7: for every date, `determineQuarterFromDate` returns 0 for months 1 to 3, 1 for months
4 to 6, 2 for months 7 to 9 and 3 for months 10 to 12, that is `(month - 1) / 3`; the month
of a date always lies in 1..12, so the result lies in 0..3 and is a valid index into the
list of four quarters. -/
theorem C7_quarter_of_month (date : Time) :
    determineQuarterFromDate date = (date.Month.toNat - 1) / 3 ∧
    (1 ≤ date.Month.toNat ∧ date.Month.toNat ≤ 12) ∧
    (date.Month.toNat ≤ 3 → determineQuarterFromDate date = 0) ∧
    (4 ≤ date.Month.toNat → date.Month.toNat ≤ 6 → determineQuarterFromDate date = 1) ∧
    (7 ≤ date.Month.toNat → date.Month.toNat ≤ 9 → determineQuarterFromDate date = 2) ∧
    (10 ≤ date.Month.toNat → determineQuarterFromDate date = 3) ∧
    determineQuarterFromDate date ≤ 3 ∧
    determineQuarterFromDate date < (makeQuarters 4).length := by
  have h := month_toNat_range date.Month
  have hq := determineQuarter_eq date
  rw [makeQuarters_length]
  refine ⟨hq, h, ?_, ?_, ?_, ?_, ?_, ?_⟩ <;> omega

theorem C7_quarter_of_month_witness :
    determineQuarterFromDate ⟨2024, .March, 31⟩ = 0 ∧
    determineQuarterFromDate ⟨2024, .April, 1⟩ = 1 ∧
    determineQuarterFromDate ⟨2024, .September, 30⟩ = 2 ∧
    determineQuarterFromDate ⟨2024, .October, 1⟩ = 3 :=
  ⟨(C7_quarter_of_month ⟨2024, .March, 31⟩).2.2.1 (by decide),
   (C7_quarter_of_month ⟨2024, .April, 1⟩).2.2.2.1 (by decide) (by decide),
   (C7_quarter_of_month ⟨2024, .September, 30⟩).2.2.2.2.1 (by decide) (by decide),
   (C7_quarter_of_month ⟨2024, .October, 1⟩).2.2.2.2.2.1 (by decide)⟩

/-! ## C8: the ingest loop -/

theorem ingestStep_rejected (st : Store) (record : List Str) (t : Transaction) (e : Error)
    (h : parseRecordToTranscation record = .ok (t, some e)) :
    ingestStep st record = .ok st := by
  simp [ingestStep, h, bind, Except.bind]

theorem ingestStep_accepted (st : Store) (record : List Str) (t : Transaction)
    (h : parseRecordToTranscation record = .ok (t, none)) :
    ingestStep st record = .ok
      ⟨st.AllTransactions ++ [t],
       st.ShortTermNets ++ [t].filter (fun t => !t.ShortTermNet.isZero),
       st.LongTermNets ++ [t].filter (fun t => t.ShortTermNet.isZero)⟩ := by
  cases hz : t.ShortTermNet.isZero <;>
    simp [ingestStep, h, bind, Except.bind, hz, List.filter_cons]

/-- The ingest loop from any store: it appends the accepted transactions in input order to
the first slice and each of them to exactly one of the two others. -/
theorem ingestFrom_spec (records : List (List Str))
    (h : ∀ r ∈ records, ∀ e, parseRecordToTranscation r ≠ .error e) (st : Store) :
    ingestFrom st records = .ok
      ⟨st.AllTransactions ++ records.filterMap acceptedTransaction,
       st.ShortTermNets ++
        (records.filterMap acceptedTransaction).filter (fun t => !t.ShortTermNet.isZero),
       st.LongTermNets ++
        (records.filterMap acceptedTransaction).filter (fun t => t.ShortTermNet.isZero)⟩ := by
  induction records generalizing st with
  | nil => simp [ingestFrom]
  | cons r rest ih =>
    have hrest : ∀ r ∈ rest, ∀ e, parseRecordToTranscation r ≠ .error e :=
      fun r hr => h r (List.mem_cons_of_mem _ hr)
    cases hp : parseRecordToTranscation r with
    | error e => exact absurd hp (h r (List.mem_cons_self _ _) e)
    | ok te =>
      obtain ⟨t, e⟩ := te
      cases e with
      | some e =>
        have ha : acceptedTransaction r = none := by simp [acceptedTransaction, hp]
        simp only [ingestFrom, ingestStep_rejected st r t e hp, List.filterMap_cons, ha]
        exact ih hrest st
      | none =>
        have ha : acceptedTransaction r = some t := by simp [acceptedTransaction, hp]
        simp only [ingestFrom, ingestStep_accepted st r t hp, List.filterMap_cons, ha]
        rw [ih hrest]
        cases hz : t.ShortTermNet.isZero <;> simp [List.filter_cons, hz]

theorem accepted_isSome_iff (r : List Str)
    (h : ∀ e, parseRecordToTranscation r ≠ .error e) :
    (acceptedTransaction r).isSome = true ↔ (r.length = 10 ∧ r.head? ≠ some []) := by
  constructor
  · intro ha
    by_contra hc
    have hu : r.length ≠ 10 ∨ r.head? = some [] := by
      by_cases hl : r.length = 10
      · exact Or.inr (by_contra fun h0 => hc ⟨hl, h0⟩)
      · exact Or.inl hl
    simp [acceptedTransaction, parseRecord_unshaped r hu] at ha
  · rintro ⟨hl, h0⟩
    obtain ⟨c0, c1, c2, c3, c4, c5, c6, c7, c8, c9, rfl⟩ := length_eq_ten r hl
    have h0 : c0 ≠ [] := by simpa using h0
    cases hp : parseRecordToTranscation [c0, c1, c2, c3, c4, c5, c6, c7, c8, c9] with
    | error e => exact absurd hp (h e)
    | ok te =>
      obtain ⟨t, e⟩ := te
      cases e with
      | some e => exact absurd hp (parseRecord_shaped_no_error _ _ _ _ _ _ _ _ _ _ h0 t e)
      | none => simp [acceptedTransaction, hp]

/-- C8: for every list of rows on each of which the classifier returns (no value cell makes
it panic), the ingest loop ends
with `AllTransactions` equal to the transactions of the accepted rows in input order, where
the accepted rows are exactly the rows of 10 cells with a non-empty first cell (so a rejected
row contributes to none of the three slices); `LongTermNets` is the sublist of
`AllTransactions` with `ShortTermNet == 0` and `ShortTermNets` the sublist with
`ShortTermNet != 0`, both in input order; every accepted transaction is in exactly one of
the two, and their lengths add up to the length of `AllTransactions`. -/
theorem C8_ingest_partition (records : List (List Str))
    (h : ∀ r ∈ records, (parseRecordToTranscation r).isOk = true) :
    ∃ st, ingest records = .ok st ∧
      st.AllTransactions = records.filterMap acceptedTransaction ∧
      (∀ r ∈ records,
        (acceptedTransaction r).isSome = true ↔ (r.length = 10 ∧ r.head? ≠ some [])) ∧
      st.LongTermNets = st.AllTransactions.filter (fun t => t.ShortTermNet.isZero) ∧
      st.ShortTermNets = st.AllTransactions.filter (fun t => !t.ShortTermNet.isZero) ∧
      (∀ t ∈ st.AllTransactions,
        (t ∈ st.ShortTermNets ∧ t ∉ st.LongTermNets) ∨
        (t ∈ st.LongTermNets ∧ t ∉ st.ShortTermNets)) ∧
      st.ShortTermNets.length + st.LongTermNets.length = st.AllTransactions.length := by
  have h : ∀ r ∈ records, ∀ e, parseRecordToTranscation r ≠ .error e := fun r hr e he => by
    have := h r hr
    simp [he, Except.isOk, Except.toBool] at this
  refine ⟨_, ingestFrom_spec records h Store.empty, by simp [Store.empty],
    fun r hr => accepted_isSome_iff r (h r hr), by simp [Store.empty],
    by simp [Store.empty], ?_, ?_⟩
  · intro t ht
    simp only [Store.empty, List.nil_append] at ht ⊢
    cases hz : t.ShortTermNet.isZero with
    | true => exact Or.inr (by simp [List.mem_filter, ht, hz])
    | false => exact Or.inl (by simp [List.mem_filter, ht, hz])
  · simp only [Store.empty, List.nil_append]
    rw [Nat.add_comm]
    exact (List.length_eq_length_filter_add _).symm

theorem C8_ingest_partition_witness :
    ∃ st, ingest [sampleRowJunk, sampleRowAAPL, [], sampleRowMSFT] = .ok st ∧
      st.AllTransactions =
        [sampleRowJunk, sampleRowAAPL, [], sampleRowMSFT].filterMap acceptedTransaction ∧
      (∀ r ∈ [sampleRowJunk, sampleRowAAPL, [], sampleRowMSFT],
        (acceptedTransaction r).isSome = true ↔ (r.length = 10 ∧ r.head? ≠ some [])) ∧
      st.LongTermNets = st.AllTransactions.filter (fun t => t.ShortTermNet.isZero) ∧
      st.ShortTermNets = st.AllTransactions.filter (fun t => !t.ShortTermNet.isZero) ∧
      (∀ t ∈ st.AllTransactions,
        (t ∈ st.ShortTermNets ∧ t ∉ st.LongTermNets) ∨
        (t ∈ st.LongTermNets ∧ t ∉ st.ShortTermNets)) ∧
      st.ShortTermNets.length + st.LongTermNets.length = st.AllTransactions.length :=
  C8_ingest_partition [sampleRowJunk, sampleRowAAPL, [], sampleRowMSFT] (by decide!)

/-! ## C9: the stable sort by sale date -/

theorem month_toNat_injective (m n : Month) (h : m.toNat = n.toNat) : m = n := by
  cases m <;> cases n <;> simp [Month.toNat] at h <;> rfl

theorem before_irrefl (t : Time) : t.Before t = false := by
  simp [Time.Before]

theorem before_asymm (t u : Time) (h : t.Before u = true) : u.Before t = false := by
  simp only [Time.Before, Bool.or_eq_true, Bool.and_eq_true, decide_eq_true_eq, beq_iff_eq,
    Bool.or_eq_false_iff, Bool.and_eq_false_iff, decide_eq_false_iff_not,
    beq_eq_false_iff_ne, ne_eq] at h ⊢
  omega

theorem not_before_trans (a b c : Time) (hab : b.Before a = false) (hbc : c.Before b = false) :
    c.Before a = false := by
  simp only [Time.Before, Bool.or_eq_false_iff, Bool.and_eq_false_iff,
    decide_eq_false_iff_not, beq_eq_false_iff_ne, ne_eq] at hab hbc ⊢
  omega

theorem insertStable_perm (x : Transaction) (l : List Transaction) :
    (insertStable lessDateSold x l).Perm (x :: l) := by
  induction l with
  | nil => exact List.Perm.refl _
  | cons y ys ih =>
    simp only [insertStable]
    split
    · exact ((List.perm_cons y).2 ih).trans (List.Perm.swap x y ys)
    · exact List.Perm.refl _

theorem insertStable_sorted (x : Transaction) (l : List Transaction)
    (h : l.Pairwise (fun a b => b.DateSold.Before a.DateSold = false)) :
    (insertStable lessDateSold x l).Pairwise
      (fun a b => b.DateSold.Before a.DateSold = false) := by
  induction l with
  | nil => simp [insertStable]
  | cons y ys ih =>
    rw [List.pairwise_cons] at h
    simp only [insertStable]
    split
    · rename_i hlt
      rw [List.pairwise_cons]
      refine ⟨fun z hz => ?_, ih h.2⟩
      rcases List.mem_cons.1 ((insertStable_perm x ys).mem_iff.1 hz) with rfl | hz
      · exact before_asymm _ _ hlt
      · exact h.1 z hz
    · rename_i hge
      have hxy : y.DateSold.Before x.DateSold = false := by
        simpa [lessDateSold] using hge
      rw [List.pairwise_cons]
      refine ⟨fun z hz => ?_, List.pairwise_cons.2 h⟩
      rcases List.mem_cons.1 hz with rfl | hz
      · exact hxy
      · exact not_before_trans _ _ _ hxy (h.1 z hz)

theorem insertStable_filter (x : Transaction) (l : List Transaction) (d : Time) :
    (insertStable lessDateSold x l).filter (fun t => t.DateSold == d) =
      (x :: l).filter (fun t => t.DateSold == d) := by
  induction l with
  | nil => rfl
  | cons y ys ih =>
    simp only [insertStable]
    split
    · rename_i hlt
      have hne : y.DateSold ≠ x.DateSold := by
        intro heq
        simp [lessDateSold, heq, before_irrefl] at hlt
      rw [List.filter_cons, ih]
      by_cases hx : x.DateSold = d
      · have hy : ¬ y.DateSold = d := fun hy => hne (hy.trans hx.symm)
        simp [List.filter_cons, hx, hy]
      · simp [List.filter_cons, hx]
    · rfl

/-- The model of `sort.SliceStable` with the sale-date comparison is a stable sort. -/
theorem sortSliceStable_isStableSort (l : List Transaction) :
    IsStableSortByDateSold (sortSliceStable lessDateSold l) l := by
  induction l with
  | nil => exact ⟨List.Perm.refl _, List.Pairwise.nil, fun _ => rfl⟩
  | cons x xs ih =>
    obtain ⟨hp, hs, hf⟩ := ih
    refine ⟨?_, ?_, fun d => ?_⟩
    · exact (insertStable_perm x _).trans ((List.perm_cons x).2 hp)
    · exact insertStable_sorted x _ hs
    · simp only [sortSliceStable]
      rw [insertStable_filter, List.filter_cons, List.filter_cons, hf d]

theorem before_antisymm (a b : Time) (h1 : a.Before b = false) (h2 : b.Before a = false) :
    a = b := by
  simp only [Time.Before, Bool.or_eq_false_iff, Bool.and_eq_false_iff,
    decide_eq_false_iff_not, beq_eq_false_iff_ne, ne_eq] at h1 h2
  rcases a with ⟨ay, am, ad⟩
  rcases b with ⟨b_y, bm, bd⟩
  simp only at h1 h2
  have hy : ay = b_y := by omega
  have hm : am.toNat = bm.toNat := by omega
  have hd : ad = bd := by omega
  rw [hy, month_toNat_injective am bm hm, hd]

/-- Two lists in non-decreasing order of sale date that agree date by date are equal. -/
theorem sorted_eq_of_filter_eq (l1 l2 : List Transaction)
    (h1 : l1.Pairwise (fun a b => b.DateSold.Before a.DateSold = false))
    (h2 : l2.Pairwise (fun a b => b.DateSold.Before a.DateSold = false))
    (hf : ∀ d : Time, l1.filter (fun t => t.DateSold == d) =
      l2.filter (fun t => t.DateSold == d)) : l1 = l2 := by
  induction l1 generalizing l2 with
  | nil =>
    cases l2 with
    | nil => rfl
    | cons b l2 =>
      have := hf b.DateSold
      simp [List.filter_cons] at this
  | cons a l1 ih =>
    cases l2 with
    | nil =>
      have := hf a.DateSold
      simp [List.filter_cons] at this
    | cons b l2 =>
      rw [List.pairwise_cons] at h1 h2
      have hb : b ∈ a :: l1 := by
        have hmem : b ∈ (b :: l2).filter (fun t => t.DateSold == b.DateSold) := by
          simp [List.filter_cons]
        rw [← hf b.DateSold] at hmem
        exact (List.mem_filter.1 hmem).1
      have ha : a ∈ b :: l2 := by
        have hmem : a ∈ (a :: l1).filter (fun t => t.DateSold == a.DateSold) := by
          simp [List.filter_cons]
        rw [hf a.DateSold] at hmem
        exact (List.mem_filter.1 hmem).1
      have hab : b.DateSold.Before a.DateSold = false := by
        rcases List.mem_cons.1 hb with rfl | hb
        · exact before_irrefl _
        · exact h1.1 b hb
      have hba : a.DateSold.Before b.DateSold = false := by
        rcases List.mem_cons.1 ha with rfl | ha
        · exact before_irrefl _
        · exact h2.1 a ha
      have hdate : a.DateSold = b.DateSold := before_antisymm _ _ hba hab
      have hhead := hf a.DateSold
      simp only [List.filter_cons, beq_self_eq_true, if_true, hdate] at hhead
      have heq : a = b := (List.cons.inj hhead).1
      subst heq
      have htail : l1 = l2 := ih l2 h1.2 h2.2 (fun d => by
        have := hf d
        simp only [List.filter_cons] at this
        split at this
        · exact (List.cons.inj this).2
        · exact this)
      rw [htail]

/-- Stable sorting by sale date has one result only, so every implementation that keeps the
promise of `sort.SliceStable` returns the list `sortSliceStable` computes. -/
theorem stableSort_unique (out inp : List Transaction) (h : IsStableSortByDateSold out inp) :
    out = sortSliceStable lessDateSold inp := by
  obtain ⟨_, hs, hf⟩ := h
  obtain ⟨_, hs2, hf2⟩ := sortSliceStable_isStableSort inp
  exact sorted_eq_of_filter_eq _ _ hs hs2 (fun d => (hf d).trans (hf2 d).symm)

/-- C9: the sort step turns each of the three slices (all, short-term, long-term) into a
permutation of itself that is in non-decreasing order of `DateSold` and stable: for every
sale date, the transactions of that date keep the relative order they had before the
sort. -/
theorem C9_sort_is_stable (st : Store) :
    IsStableSortByDateSold (sortAll st).AllTransactions st.AllTransactions ∧
    IsStableSortByDateSold (sortAll st).ShortTermNets st.ShortTermNets ∧
    IsStableSortByDateSold (sortAll st).LongTermNets st.LongTermNets :=
  ⟨sortSliceStable_isStableSort _, sortSliceStable_isStableSort _,
    sortSliceStable_isStableSort _⟩

/-! ## C10: the quarter buckets -/

theorem appendToQuarter_spec (quarters : List Quarter) (i : Nat) (t : Transaction)
    (hi : i < quarters.length) :
    ∃ qs, appendToQuarter quarters i t = .ok qs ∧ qs.length = quarters.length ∧
      ∀ k, quarterTransactions qs k =
        quarterTransactions quarters k ++ (if i = k then [t] else []) := by
  have hidx : index quarters i = .ok (quarters[i]) := by
    simp [index, List.getElem?_eq_getElem hi]
  refine ⟨quarters.set i ⟨quarters[i].Transactions ++ [t]⟩,
    by simp [appendToQuarter, hidx, bind, Except.bind], by simp, fun k => ?_⟩
  by_cases hk : i = k
  · subst hk
    simp [quarterTransactions, List.getElem?_eq_getElem hi, hi]
  · simp [quarterTransactions, List.getElem?_set_ne hk, hk]

/-- The bucketing loop from any list of four quarters: it never indexes out of range and
appends to quarter `k` the transactions of quarter `k`, in order. -/
theorem bucketFrom_spec (l : List Transaction) (quarters : List Quarter)
    (h4 : quarters.length = 4) :
    ∃ qs, bucketFrom quarters l = .ok qs ∧ qs.length = 4 ∧
      ∀ k, quarterTransactions qs k = quarterTransactions quarters k ++ inQuarter k l := by
  induction l generalizing quarters with
  | nil => exact ⟨quarters, rfl, h4, fun k => by simp [inQuarter]⟩
  | cons t rest ih =>
    obtain ⟨q1, hq1, hlen, hq⟩ := appendToQuarter_spec quarters
      (determineQuarterFromDate t.DateSold) t (by rw [h4]; exact determineQuarter_lt _)
    obtain ⟨qs, hqs, hlen2, hk⟩ := ih q1 (hlen.trans h4)
    refine ⟨qs, by simp [bucketFrom, hq1, hqs], hlen2, fun k => ?_⟩
    rw [hk k, hq k]
    by_cases hc : determineQuarterFromDate t.DateSold = k
    · simp [inQuarter, List.filter_cons, hc]
    · simp [inQuarter, List.filter_cons, hc]

theorem quarterTransactions_makeQuarters (k : Nat) :
    quarterTransactions (makeQuarters 4) k = [] := by
  rcases k with _ | _ | _ | _ | k <;> simp [quarterTransactions, makeQuarters]

theorem inQuarter_lengths (l : List Transaction) :
    (inQuarter 0 l).length + (inQuarter 1 l).length + (inQuarter 2 l).length +
      (inQuarter 3 l).length = l.length := by
  induction l with
  | nil => rfl
  | cons t rest ih =>
    have h := determineQuarter_lt t.DateSold
    have h0 : determineQuarterFromDate t.DateSold = 0 ∨
        determineQuarterFromDate t.DateSold = 1 ∨ determineQuarterFromDate t.DateSold = 2 ∨
        determineQuarterFromDate t.DateSold = 3 := by omega
    rcases h0 with h0 | h0 | h0 | h0 <;>
      simp [inQuarter, List.filter_cons, h0] at ih ⊢ <;> omega

/-- C10: bucketing the sorted all-transactions list never fails and produces exactly four
buckets; bucket `k` is the sublist of the sorted list whose sale-date quarter is `k`, in the
same relative order, so a transaction of the list is in bucket `k` exactly when `k` is its
quarter, the four sizes add up to the length of the list, and every bucket is in
non-decreasing order of sale date with the transactions of one sale date in the order they
had in the unsorted input. -/
theorem C10_buckets_partition_sorted (l : List Transaction) :
    ∃ qs, bucket (sortSliceStable lessDateSold l) = .ok qs ∧ qs.length = 4 ∧
      (∀ k, k < 4 →
        quarterTransactions qs k = inQuarter k (sortSliceStable lessDateSold l)) ∧
      (∀ t ∈ sortSliceStable lessDateSold l, ∀ k, k < 4 →
        (t ∈ quarterTransactions qs k ↔ determineQuarterFromDate t.DateSold = k)) ∧
      (quarterTransactions qs 0).length + (quarterTransactions qs 1).length +
        (quarterTransactions qs 2).length + (quarterTransactions qs 3).length =
        (sortSliceStable lessDateSold l).length ∧
      (∀ k, k < 4 → (quarterTransactions qs k).Pairwise
        (fun a b => b.DateSold.Before a.DateSold = false)) ∧
      (∀ k, k < 4 → ∀ d : Time,
        (quarterTransactions qs k).filter (fun t => t.DateSold == d) =
          (inQuarter k l).filter (fun t => t.DateSold == d)) := by
  obtain ⟨qs, hqs, hlen, hk⟩ :=
    bucketFrom_spec (sortSliceStable lessDateSold l) (makeQuarters 4) (makeQuarters_length 4)
  have hk2 : ∀ k, quarterTransactions qs k = inQuarter k (sortSliceStable lessDateSold l) :=
    fun k => by rw [hk k, quarterTransactions_makeQuarters, List.nil_append]
  obtain ⟨_, hsorted, hstable⟩ := sortSliceStable_isStableSort l
  refine ⟨qs, hqs, hlen, fun k _ => hk2 k, fun t ht k _ => ?_, ?_, fun k _ => ?_,
    fun k _ d => ?_⟩
  · rw [hk2 k]
    simp [inQuarter, List.mem_filter, ht]
  · rw [hk2 0, hk2 1, hk2 2, hk2 3]
    exact inQuarter_lengths _
  · rw [hk2 k]
    exact List.Pairwise.filter _ hsorted
  · rw [hk2 k]
    simp only [inQuarter, List.filter_filter]
    have := congrArg (List.filter (fun t => determineQuarterFromDate t.DateSold == k))
      (hstable d)
    simp only [List.filter_filter] at this
    simpa [Bool.and_comm] using this

theorem C10_buckets_partition_sorted_witness :
    ∃ qs, bucket (sortSliceStable lessDateSold [sampleMSFT, sampleAAPL]) = .ok qs ∧
      qs.length = 4 ∧
      (∀ k, k < 4 → quarterTransactions qs k =
        inQuarter k (sortSliceStable lessDateSold [sampleMSFT, sampleAAPL])) ∧
      (∀ t ∈ sortSliceStable lessDateSold [sampleMSFT, sampleAAPL], ∀ k, k < 4 →
        (t ∈ quarterTransactions qs k ↔ determineQuarterFromDate t.DateSold = k)) ∧
      (quarterTransactions qs 0).length + (quarterTransactions qs 1).length +
        (quarterTransactions qs 2).length + (quarterTransactions qs 3).length =
        (sortSliceStable lessDateSold [sampleMSFT, sampleAAPL]).length ∧
      (∀ k, k < 4 → (quarterTransactions qs k).Pairwise
        (fun a b => b.DateSold.Before a.DateSold = false)) ∧
      (∀ k, k < 4 → ∀ d : Time,
        (quarterTransactions qs k).filter (fun t => t.DateSold == d) =
          (inQuarter k [sampleMSFT, sampleAAPL]).filter (fun t => t.DateSold == d)) :=
  C10_buckets_partition_sorted [sampleMSFT, sampleAAPL]

/-! ## C11 and C12: the gain phrase -/

theorem formatFixed_negative_head (prec : Nat) (x : Float64) (h : x.isNegative = true) :
    (formatFixed prec x).head? = some '-' := by
  cases x with
  | nan => simp [Float64.isNegative] at h
  | inf neg =>
    simp only [Float64.isNegative] at h
    subst h
    rfl
  | finite neg mag =>
    simp only [Float64.isNegative, Bool.and_eq_true] at h
    simp [formatFixed, h.1]

/-- The gain phrase of every transaction, in one formula. -/
theorem gainPhrase_eq (t : Transaction) :
    gainPhrase t =
      (if t.ShortTermNet.isZero then "long term ".toList else "short term ".toList) ++
      (if (relevantNet t).isNegative then "loss".toList else "gain".toList) ++
      " of ".toList ++ formatFixed 2 (relevantNet t) ++ " USD".toList := by
  unfold gainPhrase relevantNet
  split_ifs <;> simp_all

/-- C11 as stated fails: for a transaction with `ShortTermNet = -50.25` the absolute value
is printed as `50.25`, but the phrase is `short term loss of -50.25 USD`: the amount is the
signed net, not its absolute value. -/
theorem C11_counterexample_amount_is_signed :
    (transactionWithNets minusFiftyAndAQuarter Float64.zero).ShortTermNet.isZero = false ∧
    (transactionWithNets minusFiftyAndAQuarter Float64.zero).ShortTermNet.isNegative = true ∧
    formatFixed 2 (transactionWithNets minusFiftyAndAQuarter Float64.zero).ShortTermNet.abs =
      "50.25".toList ∧
    gainPhrase (transactionWithNets minusFiftyAndAQuarter Float64.zero) =
      "short term loss of -50.25 USD".toList ∧
    gainPhrase (transactionWithNets minusFiftyAndAQuarter Float64.zero) ≠
      "short term loss of ".toList ++
        formatFixed 2 (transactionWithNets minusFiftyAndAQuarter Float64.zero).ShortTermNet.abs
        ++ " USD".toList := by
  refine ⟨by decide!, by decide!, by decide!, by decide!, by decide!⟩

/-- C11 (amended): for every transaction, `gainPhrase` returns `long term {gain|loss} of X
USD` when `ShortTermNet == 0` and `short term {gain|loss} of X USD` otherwise, where the word
is `loss` if the relevant net (`LongTermNet`, resp. `ShortTermNet`) is negative and `gain`
otherwise (including zero), and `X` is that net itself, with its sign, formatted with two
decimals; so the amount of a loss begins with a minus sign. -/
theorem C11_gain_phrase_shape (t : Transaction) :
    gainPhrase t =
      (if t.ShortTermNet.isZero then "long term ".toList else "short term ".toList) ++
      (if (relevantNet t).isNegative then "loss".toList else "gain".toList) ++
      " of ".toList ++ formatFixed 2 (relevantNet t) ++ " USD".toList ∧
    relevantNet t = (if t.ShortTermNet.isZero then t.LongTermNet else t.ShortTermNet) ∧
    ((relevantNet t).isNegative = true →
      (formatFixed 2 (relevantNet t)).head? = some '-') :=
  ⟨gainPhrase_eq t, rfl, formatFixed_negative_head 2 _⟩

theorem C11_gain_phrase_shape_witness :
    (formatFixed 2 (relevantNet sampleMSFT)).head? = some '-' :=
  (C11_gain_phrase_shape sampleMSFT).2.2 (by decide!)

/-- C12: a transaction with `ShortTermNet = -50.25` and `LongTermNet = 0` has the gain phrase
`short term loss of -50.25 USD`, one with `ShortTermNet = 0` and `LongTermNet = 100.00` has
`long term gain of 100.00 USD`, whatever its other fields; in general the amount shown for a
loss is the signed net formatted with two decimals, which begins with a minus sign. -/
theorem C12_gain_phrase_examples :
    (∀ t : Transaction, t.ShortTermNet = minusFiftyAndAQuarter → t.LongTermNet = Float64.zero →
      gainPhrase t = "short term loss of -50.25 USD".toList) ∧
    (∀ t : Transaction, t.ShortTermNet = Float64.zero → t.LongTermNet = oneHundred →
      gainPhrase t = "long term gain of 100.00 USD".toList) ∧
    (∀ t : Transaction, (relevantNet t).isNegative = true →
      gainPhrase t =
        (if t.ShortTermNet.isZero then "long term loss of ".toList
          else "short term loss of ".toList) ++
        formatFixed 2 (relevantNet t) ++ " USD".toList ∧
      (formatFixed 2 (relevantNet t)).head? = some '-') := by
  refine ⟨fun t h1 h2 => ?_, fun t h1 h2 => ?_, fun t h => ⟨?_, ?_⟩⟩
  · rw [gainPhrase_eq]
    simp only [relevantNet, h1, h2]
    decide!
  · rw [gainPhrase_eq]
    simp only [relevantNet, h1, h2]
    decide!
  · rw [gainPhrase_eq, h]
    cases t.ShortTermNet.isZero <;> simp
  · exact formatFixed_negative_head 2 _ h

theorem C12_gain_phrase_examples_witness :
    gainPhrase (transactionWithNets minusFiftyAndAQuarter Float64.zero) =
      "short term loss of -50.25 USD".toList ∧
    gainPhrase sampleAAPL = "short term gain of 500.00 USD".toList ∧
    gainPhrase { sampleAAPL with ShortTermNet := Float64.zero, LongTermNet := oneHundred } =
      "long term gain of 100.00 USD".toList ∧
    gainPhrase sampleMSFT = "long term loss of -100.00 USD".toList :=
  ⟨C12_gain_phrase_examples.1 _ rfl rfl, by decide!,
   C12_gain_phrase_examples.2.1 _ rfl rfl,
   by
    have h := (C12_gain_phrase_examples.2.2 sampleMSFT (by decide!)).1
    rw [h]
    decide!⟩

/-! ## The printing loop and exact sums -/

theorem printQuarter_fold (ts : List Transaction) (out : List Output) (a b : Float64) :
    ts.foldl
      (fun (acc : List Output × Float64 × Float64) t =>
        (acc.1 ++ [Output.transactionLine (soldLine t)],
          acc.2.1.add t.ShortTermNet, acc.2.2.add t.LongTermNet)) (out, a, b) =
    (out ++ ts.map (fun t => Output.transactionLine (soldLine t)),
      (ts.map (fun t => t.ShortTermNet)).foldl Float64.add a,
      (ts.map (fun t => t.LongTermNet)).foldl Float64.add b) := by
  induction ts generalizing out a b with
  | nil => simp
  | cons t rest ih => simp [ih]

/-- What the report prints for one quarter: its transaction lines, then the summary line with
the two running sums over the transactions of this quarter. -/
theorem printQuarter_eq (i : Nat) (q : Quarter) :
    printQuarter i q =
      q.Transactions.map (fun t => Output.transactionLine (soldLine t)) ++
      [Output.quarterSummary (summaryLine (i + 1)
        (floatSum (q.Transactions.map (fun t => t.ShortTermNet)))
        (floatSum (q.Transactions.map (fun t => t.LongTermNet))))] := by
  simp [printQuarter, printQuarter_fold, floatSum]

theorem exactSum_inQuarter (f : Transaction → Float64) (l : List Transaction) :
    exactSum ((inQuarter 0 l).map f) + exactSum ((inQuarter 1 l).map f) +
      exactSum ((inQuarter 2 l).map f) + exactSum ((inQuarter 3 l).map f) =
      exactSum (l.map f) := by
  induction l with
  | nil => rfl
  | cons t rest ih =>
    have h := determineQuarter_lt t.DateSold
    have h0 : determineQuarterFromDate t.DateSold = 0 ∨
        determineQuarterFromDate t.DateSold = 1 ∨ determineQuarterFromDate t.DateSold = 2 ∨
        determineQuarterFromDate t.DateSold = 3 := by omega
    rcases h0 with h0 | h0 | h0 | h0 <;>
      simp [inQuarter, exactSum, List.filter_cons, h0] at ih ⊢ <;> omega

theorem exactSum_perm (f : Transaction → Float64) (l1 l2 : List Transaction)
    (h : l1.Perm l2) : exactSum (l1.map f) = exactSum (l2.map f) := by
  unfold exactSum
  exact ((h.map f).map Float64.exactUnits).sum_eq

/-! ## C14: the end-to-end example -/

/-- C14: on the two rows of the end-to-end example both rows are accepted; AAPL is the only
transaction of Q1 and MSFT the only one of Q2; the run ends without a panic and prints, after
the quarter count and the banner, the AAPL line `Sold 10.0 shares of AAPL on 02/15/2023 for a
short term gain of 500.00 USD` and the Q1 summary with 500.00 and 0.00, the MSFT line `Sold
5.0 shares of MSFT on 05/10/2023 for a long term loss of -100.00 USD` and the Q2 summary with
0.00 and -100.00, then the summaries of the empty Q3 and Q4 with 0.00 and 0.00 (every line
ends with the blank and the newline of its format string). -/
theorem C14_end_to_end_example :
    acceptedTransaction sampleRowAAPL = some sampleAAPL ∧
    acceptedTransaction sampleRowMSFT = some sampleMSFT ∧
    ingest [sampleRowAAPL, sampleRowMSFT] =
      .ok ⟨[sampleAAPL, sampleMSFT], [sampleAAPL], [sampleMSFT]⟩ ∧
    bucket (sortSliceStable lessDateSold [sampleAAPL, sampleMSFT]) =
      .ok [⟨[sampleAAPL]⟩, ⟨[sampleMSFT]⟩, ⟨[]⟩, ⟨[]⟩] ∧
    main [sampleRowAAPL, sampleRowMSFT] =
      ⟨[Output.quarterCount 4, Output.banner,
        Output.transactionLine
          ("Sold 10.0 shares of AAPL on 02/15/2023 for a short term gain of 500.00 USD".toList
            ++ " \n".toList),
        Output.quarterSummary
          ("============ End of Quarter 1 || Short Term Net: 500.00, Long Term Net: 0.00".toList
            ++ " \n\n".toList),
        Output.transactionLine
          ("Sold 5.0 shares of MSFT on 05/10/2023 for a long term loss of -100.00 USD".toList
            ++ " \n".toList),
        Output.quarterSummary
          ("============ End of Quarter 2 || Short Term Net: 0.00, Long Term Net: -100.00".toList
            ++ " \n\n".toList),
        Output.quarterSummary
          ("============ End of Quarter 3 || Short Term Net: 0.00, Long Term Net: 0.00".toList
            ++ " \n\n".toList),
        Output.quarterSummary
          ("============ End of Quarter 4 || Short Term Net: 0.00, Long Term Net: 0.00".toList
            ++ " \n\n".toList)],
       none⟩ := by
  refine ⟨by decide!, by decide!, by decide!, by decide!, by decide!⟩

/-! ## C15: when the classifier panics -/

theorem isOk_false_iff {ε α : Type} (x : Except ε α) :
    x.isOk = false ↔ ∃ e, x = .error e := by
  cases x <;> simp [Except.isOk, Except.toBool]

/-- A shaped row makes the classifier panic exactly when one of its value cells makes the
sanitizer or the date parser panic. -/
theorem parseRecord_panics_iff (c0 c1 c2 c3 c4 c5 c6 c7 c8 c9 : Str) (h0 : c0 ≠ []) :
    (parseRecordToTranscation [c0, c1, c2, c3, c4, c5, c6, c7, c8, c9]).isOk = false ↔
      ((sanitizeMoneySymbolsAndParseToFloat64 c2).isOk = false ∨
       (sanitizeMoneySymbolsAndParseToFloat64 c5).isOk = false ∨
       (sanitizeMoneySymbolsAndParseToFloat64 c6).isOk = false ∨
       (sanitizeMoneySymbolsAndParseToFloat64 c7).isOk = false ∨
       (sanitizeMoneySymbolsAndParseToFloat64 c8).isOk = false) ∨
      ((parseTime c3).isOk = false ∨ (parseTime c4).isOk = false) := by
  rw [parseRecord_shaped _ _ _ _ _ _ _ _ _ _ h0]
  cases sanitizeMoneySymbolsAndParseToFloat64 c2 <;>
  cases parseTime c3 <;>
  cases parseTime c4 <;>
  cases sanitizeMoneySymbolsAndParseToFloat64 c5 <;>
  cases sanitizeMoneySymbolsAndParseToFloat64 c6 <;>
  cases sanitizeMoneySymbolsAndParseToFloat64 c7 <;>
  cases sanitizeMoneySymbolsAndParseToFloat64 c8 <;>
  simp [bind, Except.bind, Except.isOk, Except.toBool]

/-- C15: for every row of 10 cells with a non-empty first cell, `parseRecordToTranscation`
panics (it returns neither a transaction nor `ErrUnparsedLine`) exactly when at least one of
the numeric cells 2, 5, 6, 7, 8 makes the sanitizer panic or at least one of the date cells
3, 4 makes the date parser panic; a header row of ten column titles makes the classifier and
with it the whole run panic, it is not skipped. -/
theorem C15_shaped_row_panics_iff_bad_value :
    (∀ r : List Str, r.length = 10 → r.head? ≠ some [] →
      ((parseRecordToTranscation r).isOk = false ↔
        ((sanitizeMoneySymbolsAndParseToFloat64 (r.getD 2 [])).isOk = false ∨
         (sanitizeMoneySymbolsAndParseToFloat64 (r.getD 5 [])).isOk = false ∨
         (sanitizeMoneySymbolsAndParseToFloat64 (r.getD 6 [])).isOk = false ∨
         (sanitizeMoneySymbolsAndParseToFloat64 (r.getD 7 [])).isOk = false ∨
         (sanitizeMoneySymbolsAndParseToFloat64 (r.getD 8 [])).isOk = false) ∨
        ((parseTime (r.getD 3 [])).isOk = false ∨ (parseTime (r.getD 4 [])).isOk = false))) ∧
    parseRecordToTranscation sampleRowHeader = .error .noNumberFound ∧
    ingest [sampleRowHeader] = .error .noNumberFound ∧
    main [sampleRowHeader] = ⟨[Output.notice .noNumberFound], some .noNumberFound⟩ := by
  refine ⟨fun r hl h0 => ?_, by decide, by decide, by decide⟩
  obtain ⟨c0, c1, c2, c3, c4, c5, c6, c7, c8, c9, rfl⟩ := length_eq_ten r hl
  have h0 : c0 ≠ [] := by simpa using h0
  simpa using parseRecord_panics_iff c0 c1 c2 c3 c4 c5 c6 c7 c8 c9 h0

theorem C15_shaped_row_panics_iff_bad_value_witness :
    ((parseRecordToTranscation sampleRowHeader).isOk = false ↔
      ((sanitizeMoneySymbolsAndParseToFloat64 (sampleRowHeader.getD 2 [])).isOk = false ∨
       (sanitizeMoneySymbolsAndParseToFloat64 (sampleRowHeader.getD 5 [])).isOk = false ∨
       (sanitizeMoneySymbolsAndParseToFloat64 (sampleRowHeader.getD 6 [])).isOk = false ∨
       (sanitizeMoneySymbolsAndParseToFloat64 (sampleRowHeader.getD 7 [])).isOk = false ∨
       (sanitizeMoneySymbolsAndParseToFloat64 (sampleRowHeader.getD 8 [])).isOk = false) ∨
      ((parseTime (sampleRowHeader.getD 3 [])).isOk = false ∨
       (parseTime (sampleRowHeader.getD 4 [])).isOk = false)) :=
  C15_shaped_row_panics_iff_bad_value.1 sampleRowHeader (by decide) (by decide)

/-! ## C16: all or nothing -/

/-- The classifier returns on a row exactly when the row is not shaped like a transaction or
its value cells are well formed. -/
theorem parseRecord_isOk_iff (r : List Str) :
    (parseRecordToTranscation r).isOk = true ↔
      (r.length = 10 → r.head? ≠ some [] → valueCellsWellFormed r = true) := by
  by_cases hl : r.length = 10
  · obtain ⟨c0, c1, c2, c3, c4, c5, c6, c7, c8, c9, rfl⟩ := length_eq_ten r hl
    by_cases h0 : c0 = []
    · subst h0
      rw [parseRecord_unshaped _ (Or.inr (by simp))]
      simp [Except.isOk, Except.toBool]
    · rw [parseRecord_shaped _ _ _ _ _ _ _ _ _ _ h0]
      simp only [valueCellsWellFormed, List.all_cons, List.all_nil, Bool.and_true,
        List.getD_cons_succ, List.getD_cons_zero]
      cases sanitizeMoneySymbolsAndParseToFloat64 c2 <;>
      cases parseTime c3 <;>
      cases parseTime c4 <;>
      cases sanitizeMoneySymbolsAndParseToFloat64 c5 <;>
      cases sanitizeMoneySymbolsAndParseToFloat64 c6 <;>
      cases sanitizeMoneySymbolsAndParseToFloat64 c7 <;>
      cases sanitizeMoneySymbolsAndParseToFloat64 c8 <;>
      simp [bind, Except.bind, Except.isOk, Except.toBool, h0]
  · rw [parseRecord_unshaped _ (Or.inl hl)]
    simp [Except.isOk, Except.toBool, hl]

theorem ingestLog_no_report (records : List (List Str)) :
    ∀ o ∈ ingestLog records, o.isTransactionLine = false ∧ o.isQuarterSummary = false := by
  induction records with
  | nil => simp [ingestLog]
  | cons r rest ih =>
    intro o ho
    simp only [ingestLog] at ho
    split at ho
    · rename_i p _
      cases p <;> simp [panicNotice] at ho <;> subst ho <;> exact ⟨rfl, rfl⟩
    · rcases List.mem_cons.1 ho with rfl | ho
      · exact ⟨rfl, rfl⟩
      · exact ih o ho
    · exact ih o ho

theorem ingestStep_ok_of_isOk (st : Store) (r : List Str)
    (h : (parseRecordToTranscation r).isOk = true) : ∃ st1, ingestStep st r = .ok st1 := by
  obtain ⟨⟨t, e⟩, hp⟩ := (isOk_iff_exists _).1 h
  cases e with
  | some e => exact ⟨_, ingestStep_rejected st r t e hp⟩
  | none => exact ⟨_, ingestStep_accepted st r t hp⟩

theorem ingestFrom_error_of_panic (records : List (List Str)) (st : Store)
    (h : ∃ r ∈ records, (parseRecordToTranscation r).isOk = false) :
    ∃ p, ingestFrom st records = .error p := by
  induction records generalizing st with
  | nil => simp at h
  | cons r rest ih =>
    cases hr : (parseRecordToTranscation r).isOk with
    | false =>
      obtain ⟨p, hp⟩ := (isOk_false_iff _).1 hr
      exact ⟨p, by simp [ingestFrom, ingestStep, hp, bind, Except.bind]⟩
    | true =>
      obtain ⟨st1, hst⟩ := ingestStep_ok_of_isOk st r hr
      have hrest : ∃ r ∈ rest, (parseRecordToTranscation r).isOk = false := by
        obtain ⟨x, hx, hxp⟩ := h
        rcases List.mem_cons.1 hx with rfl | hx
        · rw [hr] at hxp
          exact absurd hxp (by simp)
        · exact ⟨x, hx, hxp⟩
      obtain ⟨p, hp⟩ := ih st1 hrest
      exact ⟨p, by simp [ingestFrom, hst, hp]⟩

theorem printQuartersFrom_transactionLines (i : Nat) (qs : List Quarter) :
    (printQuartersFrom i qs).filter Output.isTransactionLine =
      ((qs.map (fun q => q.Transactions)).flatten).map
        (fun t => Output.transactionLine (soldLine t)) := by
  induction qs generalizing i with
  | nil => rfl
  | cons q rest ih =>
    simp only [printQuartersFrom, printQuarter_eq, List.filter_append, ih, List.map_cons,
      List.flatten_cons, List.map_append]
    have h1 : (q.Transactions.map (fun t => Output.transactionLine (soldLine t))).filter
        Output.isTransactionLine =
        q.Transactions.map (fun t => Output.transactionLine (soldLine t)) := by
      rw [List.filter_eq_self]
      intro o ho
      obtain ⟨t, _, rfl⟩ := List.mem_map.1 ho
      rfl
    rw [h1]
    simp [List.filter_cons, Output.isTransactionLine]

theorem printQuartersFrom_summaries (i : Nat) (qs : List Quarter) :
    ((printQuartersFrom i qs).filter Output.isQuarterSummary).length = qs.length := by
  induction qs generalizing i with
  | nil => rfl
  | cons q rest ih =>
    simp only [printQuartersFrom, printQuarter_eq, List.filter_append, List.length_append, ih,
      List.length_cons]
    have h1 : (q.Transactions.map (fun t => Output.transactionLine (soldLine t))).filter
        Output.isQuarterSummary = [] := by
      rw [List.filter_eq_nil_iff]
      intro o ho
      obtain ⟨t, _, rfl⟩ := List.mem_map.1 ho
      simp [Output.isQuarterSummary]
    rw [h1]
    simp [List.filter_cons, Output.isQuarterSummary]
    omega

theorem inQuarter_perm (l : List Transaction) :
    (inQuarter 0 l ++ inQuarter 1 l ++ inQuarter 2 l ++ inQuarter 3 l).Perm l := by
  induction l with
  | nil => exact List.Perm.refl _
  | cons t rest ih =>
    have h := determineQuarter_lt t.DateSold
    have h0 : determineQuarterFromDate t.DateSold = 0 ∨
        determineQuarterFromDate t.DateSold = 1 ∨ determineQuarterFromDate t.DateSold = 2 ∨
        determineQuarterFromDate t.DateSold = 3 := by omega
    rcases h0 with h0 | h0 | h0 | h0
    · simp only [inQuarter, List.filter_cons, h0] at ih ⊢
      simpa using ih
    · simp only [inQuarter, List.filter_cons, h0] at ih ⊢
      simp only [beq_self_eq_true, if_true, Nat.reduceBEq, Bool.false_eq_true, if_false,
        List.append_assoc, List.cons_append] at ih ⊢
      exact List.perm_middle.trans ((List.perm_cons t).2 ih)
    · simp only [inQuarter, List.filter_cons, h0] at ih ⊢
      simp only [beq_self_eq_true, if_true, Nat.reduceBEq, Bool.false_eq_true, if_false,
        List.append_assoc, List.cons_append] at ih ⊢
      rw [← List.append_assoc]
      rw [← List.append_assoc] at ih
      exact List.perm_middle.trans ((List.perm_cons t).2 ih)
    · simp only [inQuarter, List.filter_cons, h0] at ih ⊢
      simp only [beq_self_eq_true, if_true, Nat.reduceBEq, Bool.false_eq_true, if_false,
        List.append_assoc, List.cons_append] at ih ⊢
      rw [← List.append_assoc, ← List.append_assoc]
      rw [← List.append_assoc, ← List.append_assoc] at ih
      exact List.perm_middle.trans ((List.perm_cons t).2 ih)

/-- A run on rows on which the classifier always returns: no panic, and the printed items
are the ingest log, the quarter count, the banner and the four quarters of the sorted
accepted transactions. -/
theorem main_of_all_ok (records : List (List Str))
    (h : ∀ r ∈ records, (parseRecordToTranscation r).isOk = true) :
    ∃ qs, bucket (sortSliceStable lessDateSold (records.filterMap acceptedTransaction)) =
        .ok qs ∧
      main records = ⟨ingestLog records ++ [Output.quarterCount 4, Output.banner] ++
        printQuartersFrom 0 qs, none⟩ := by
  have h2 : ∀ r ∈ records, ∀ e, parseRecordToTranscation r ≠ .error e := fun r hr e he => by
    have := h r hr
    simp [he, Except.isOk, Except.toBool] at this
  have hing := ingestFrom_spec records h2 Store.empty
  obtain ⟨qs, hqs, _, _⟩ :=
    bucketFrom_spec (sortSliceStable lessDateSold (records.filterMap acceptedTransaction))
      (makeQuarters 4) (makeQuarters_length 4)
  refine ⟨qs, hqs, ?_⟩
  simp only [main, ingest, hing, sortAll, makeQuarters_length]
  simp only [Store.empty, List.nil_append, hqs]

/-- C16: partial success is impossible. For every list of rows, either every row shaped like
a transaction (10 cells, non-empty symbol) has well-formed value cells, and then the run ends
without a panic, the transaction lines it prints are those of the accepted rows (each one
once, up to order) and it prints four quarter summary lines; or some shaped row has a
malformed value cell, and then the run panics having printed no transaction line and no
quarter summary line. -/
theorem C16_no_partial_report (records : List (List Str)) :
    ((∀ r ∈ records, r.length = 10 → r.head? ≠ some [] → valueCellsWellFormed r = true) ∧
      (main records).panic = none ∧
      ((main records).output.filter Output.isTransactionLine).Perm
        ((records.filterMap acceptedTransaction).map
          (fun t => Output.transactionLine (soldLine t))) ∧
      ((main records).output.filter Output.isQuarterSummary).length = 4) ∨
    ((∃ r ∈ records, r.length = 10 ∧ r.head? ≠ some [] ∧ valueCellsWellFormed r = false) ∧
      (∃ p, (main records).panic = some p) ∧
      ∀ o ∈ (main records).output,
        o.isTransactionLine = false ∧ o.isQuarterSummary = false) := by
  by_cases hall : ∀ r ∈ records, (parseRecordToTranscation r).isOk = true
  · left
    obtain ⟨qs, hqs, hmain⟩ := main_of_all_ok records hall
    obtain ⟨qs2, hqs2, hlen, hk⟩ :=
      bucketFrom_spec (sortSliceStable lessDateSold (records.filterMap acceptedTransaction))
        (makeQuarters 4) (makeQuarters_length 4)
    have heq : qs2 = qs := by
      simp only [bucket] at hqs
      rw [hqs] at hqs2
      exact (Except.ok.inj hqs2).symm
    subst heq
    have hlog1 : (ingestLog records).filter Output.isTransactionLine = [] :=
      List.filter_eq_nil_iff.2 (fun o ho => by simp [(ingestLog_no_report records o ho).1])
    have hlog2 : (ingestLog records).filter Output.isQuarterSummary = [] :=
      List.filter_eq_nil_iff.2 (fun o ho => by simp [(ingestLog_no_report records o ho).2])
    refine ⟨fun r hr => (parseRecord_isOk_iff r).1 (hall r hr), by rw [hmain], ?_, ?_⟩
    · rw [hmain]
      simp only [List.filter_append, hlog1, List.nil_append,
        printQuartersFrom_transactionLines]
      have hq : (qs2.map (fun q => q.Transactions)).flatten =
          inQuarter 0 (sortSliceStable lessDateSold (records.filterMap acceptedTransaction)) ++
          inQuarter 1 (sortSliceStable lessDateSold (records.filterMap acceptedTransaction)) ++
          inQuarter 2 (sortSliceStable lessDateSold (records.filterMap acceptedTransaction)) ++
          inQuarter 3 (sortSliceStable lessDateSold (records.filterMap acceptedTransaction))
          := by
        have h0 := hk 0
        have h1 := hk 1
        have h2 := hk 2
        have h3 := hk 3
        rw [quarterTransactions_makeQuarters, List.nil_append] at h0 h1 h2 h3
        rw [← h0, ← h1, ← h2, ← h3]
        match qs2, hlen with
        | [q0, q1, q2, q3], _ => simp [quarterTransactions]
      rw [hq]
      have hp := (inQuarter_perm
        (sortSliceStable lessDateSold (records.filterMap acceptedTransaction))).trans
        (sortSliceStable_isStableSort (records.filterMap acceptedTransaction)).1
      simpa [List.filter_cons, Output.isTransactionLine] using
        hp.map (fun t => Output.transactionLine (soldLine t))
    · rw [hmain]
      simp only [List.filter_append, hlog2, List.nil_append, List.length_append,
        printQuartersFrom_summaries, hlen]
      simp [List.filter_cons, Output.isQuarterSummary]
  · right
    have hbad : ∃ r ∈ records, (parseRecordToTranscation r).isOk = false := by
      by_contra hc
      apply hall
      intro r hr
      cases hv : (parseRecordToTranscation r).isOk with
      | true => rfl
      | false => exact absurd ⟨r, hr, hv⟩ hc
    obtain ⟨p, hp⟩ := ingestFrom_error_of_panic records Store.empty hbad
    obtain ⟨r, hr, hrp⟩ := hbad
    have hshape : ¬ (r.length = 10 → r.head? ≠ some [] → valueCellsWellFormed r = true) :=
      fun hc => by
        have := (parseRecord_isOk_iff r).2 hc
        rw [hrp] at this
        exact absurd this (by simp)
    have hmain : main records = ⟨ingestLog records, some p⟩ := by
      simp only [main, ingest, hp]
    refine ⟨⟨r, hr, ?_⟩, ⟨p, by rw [hmain]⟩, ?_⟩
    · by_cases hl : r.length = 10
      · by_cases h0 : r.head? = some []
        · exact absurd (fun _ h => absurd h0 h) hshape
        · refine ⟨hl, h0, ?_⟩
          cases hw : valueCellsWellFormed r with
          | false => rfl
          | true => exact absurd (fun _ _ => hw) hshape
      · exact absurd (fun h => absurd h hl) hshape
    · rw [hmain]
      exact ingestLog_no_report records

/-! ## C17 and C20: the sign check -/

/-- The three ways the sanitizer ends: the early return of 0, the "No number found" panic,
and, with a numeric run, a value with the sign of the first character or the "Parse error"
panic. -/
theorem sanitize_cases (s : Str) :
    ((trimSpace s = "--".toList ∨ trimSpace s = []) ∧
      sanitizeMoneySymbolsAndParseToFloat64 s = .ok Float64.zero) ∨
    (removeCommas (trimSpace s) ≠ [] ∧ ∃ m, sanitizeMoneySymbolsAndParseToFloat64 s =
      .ok (.finite (decide ((removeCommas (trimSpace s)).head? = some '-')) m)) ∨
    sanitizeMoneySymbolsAndParseToFloat64 s = .error .noNumberFound ∨
    sanitizeMoneySymbolsAndParseToFloat64 s = .error .parseError := by
  by_cases ht : trimSpace s = "--".toList ∨ trimSpace s = []
  · left
    refine ⟨ht, ?_⟩
    simp only [sanitizeMoneySymbolsAndParseToFloat64]
    rw [if_pos ht]
  · right
    have h1 : trimSpace s ≠ "--".toList := fun h => ht (Or.inl h)
    have h2 : trimSpace s ≠ [] := fun h => ht (Or.inr h)
    cases hrun : firstNumericRun (removeCommas (trimSpace s)) with
    | none => exact Or.inr (Or.inl (sanitize_of_no_run s h1 h2 hrun))
    | some r =>
      obtain ⟨ip, fp⟩ := r
      have hs := sanitize_of_run s h1 h2 ip fp hrun
      have hne : removeCommas (trimSpace s) ≠ [] := by
        intro h0
        rw [h0] at hrun
        simp [firstNumericRun] at hrun
      cases hround : roundToFloat64 (decimalNat (ip ++ fp) * Float64.unit) (10 ^ fp.length) with
      | none =>
        rw [hround] at hs
        exact Or.inr (Or.inr hs)
      | some m =>
        rw [hround] at hs
        exact Or.inl ⟨hne, m, hs⟩

/-- C17: whenever `sanitizeMoneySymbolsAndParseToFloat64` returns, the result is either the 0
of the early return or a finite value whose sign bit is set exactly when the trimmed,
comma-stripped input begins with `-`; so a strictly negative result requires that first
character to be `-`, a minus sign next to the digits does not count: `$-5.00` and `($-5.00)`
yield +5.00, while `-abc5` yields -5. -/
theorem C17_sign_from_first_character :
    (∀ (s : Str) (v : Float64), sanitizeMoneySymbolsAndParseToFloat64 s = .ok v →
      v = Float64.zero ∨
      ∃ m, v = .finite (decide ((removeCommas (trimSpace s)).head? = some '-')) m) ∧
    (∀ (s : Str) (v : Float64), sanitizeMoneySymbolsAndParseToFloat64 s = .ok v →
      v.isNegative = true → (removeCommas (trimSpace s)).head? = some '-') ∧
    sanitizeMoneySymbolsAndParseToFloat64 "$-5.00".toList =
      .ok (.finite false (5 * Float64.unit)) ∧
    sanitizeMoneySymbolsAndParseToFloat64 "($-5.00)".toList =
      .ok (.finite false (5 * Float64.unit)) ∧
    sanitizeMoneySymbolsAndParseToFloat64 "-abc5".toList =
      .ok (.finite true (5 * Float64.unit)) := by
  have key : ∀ (s : Str) (v : Float64), sanitizeMoneySymbolsAndParseToFloat64 s = .ok v →
      v = Float64.zero ∨
      ∃ m, v = .finite (decide ((removeCommas (trimSpace s)).head? = some '-')) m := by
    intro s v hv
    rcases sanitize_cases s with ⟨_, h⟩ | ⟨_, m, h⟩ | h | h
    · rw [h] at hv
      exact Or.inl (Except.ok.inj hv).symm
    · rw [h] at hv
      exact Or.inr ⟨m, (Except.ok.inj hv).symm⟩
    · rw [h] at hv
      simp at hv
    · rw [h] at hv
      simp at hv
  refine ⟨key, fun s v hv hneg => ?_, by decide!, by decide!, by decide!⟩
  rcases key s v hv with rfl | ⟨m, rfl⟩
  · simp [Float64.isNegative, Float64.zero] at hneg
  · simp only [Float64.isNegative, Bool.and_eq_true, decide_eq_true_eq] at hneg
    exact hneg.1

theorem C17_sign_from_first_character_witness :
    (removeCommas (trimSpace " -1,000.5 ".toList)).head? = some '-' :=
  C17_sign_from_first_character.2.1 " -1,000.5 ".toList
    (.finite true (2001 * Float64.unit / 2)) (by decide!) (by decide!)

/-- C20: the access `in[0]` of the sign check is never out of bounds: for every input the
sanitizer ends in another way than an index panic, and whenever the pattern has matched (so
that execution goes on to the sign check) the trimmed, comma-stripped text is not empty;
inputs that become empty once their commas are removed, such as `,` and ` ,, `, leave through
the "No number found" panic. -/
theorem C20_sign_check_in_bounds :
    (∀ s : Str, sanitizeMoneySymbolsAndParseToFloat64 s ≠ .error .indexOutOfRange) ∧
    (∀ s : Str, 2 ≤ (findStringSubmatch (removeCommas (trimSpace s))).length →
      removeCommas (trimSpace s) ≠ [] ∧
      ∃ c, index (removeCommas (trimSpace s)) 0 = .ok c) ∧
    sanitizeMoneySymbolsAndParseToFloat64 ",".toList = .error .noNumberFound ∧
    sanitizeMoneySymbolsAndParseToFloat64 " ,, ".toList = .error .noNumberFound := by
  refine ⟨fun s h => ?_, fun s h => ?_, by decide, by decide⟩
  · rcases sanitize_cases s with ⟨_, h1⟩ | ⟨_, m, h1⟩ | h1 | h1 <;>
      · rw [h1] at h
        simp at h
  · cases hs : removeCommas (trimSpace s) with
    | nil =>
      rw [hs] at h
      simp [findStringSubmatch] at h
    | cons c r => exact ⟨by simp, c, index_cons_zero c r⟩

theorem C20_sign_check_in_bounds_witness :
    removeCommas (trimSpace " -$4,5 ".toList) ≠ [] ∧
    ∃ c, index (removeCommas (trimSpace " -$4,5 ".toList)) 0 = .ok c :=
  C20_sign_check_in_bounds.2.1 " -$4,5 ".toList (by decide)

/-! ## C18: rows sold on an unknown date -/

/-- C18 as stated fails: a row sold on `12/31/0000` has a real, parsed sale date, and after
the sort it stands before the row whose sale date is `Unknown`; and a row sold on
`01/01/0001` has the same sale date as the `Unknown` one, so the `Unknown` row that follows
it in the input also follows it after the sort. -/
theorem C18_counterexample_year_zero :
    acceptedTransaction sampleRowUnknown = some (flatSale "XYZ" "Some Co" Time.zero) ∧
    acceptedTransaction sampleRowYearZero =
      some (flatSale "OLD" "Old Co" ⟨0, .December, 31⟩) ∧
    acceptedTransaction sampleRowYearOne =
      some (flatSale "ONE" "One Co" ⟨1, .January, 1⟩) ∧
    ingest [sampleRowUnknown, sampleRowYearZero] =
      .ok ⟨[flatSale "XYZ" "Some Co" Time.zero, flatSale "OLD" "Old Co" ⟨0, .December, 31⟩],
        [], [flatSale "XYZ" "Some Co" Time.zero, flatSale "OLD" "Old Co" ⟨0, .December, 31⟩]⟩ ∧
    sortSliceStable lessDateSold
      [flatSale "XYZ" "Some Co" Time.zero, flatSale "OLD" "Old Co" ⟨0, .December, 31⟩] =
      [flatSale "OLD" "Old Co" ⟨0, .December, 31⟩, flatSale "XYZ" "Some Co" Time.zero] ∧
    sortSliceStable lessDateSold
      [flatSale "ONE" "One Co" ⟨1, .January, 1⟩, flatSale "XYZ" "Some Co" Time.zero] =
      [flatSale "ONE" "One Co" ⟨1, .January, 1⟩, flatSale "XYZ" "Some Co" Time.zero] := by
  refine ⟨by decide!, by decide!, by decide!, by decide!, by decide!, by decide!⟩

theorem parseTime_after_zero (s : Str) (d : Time) (h : parseTime s = .ok d)
    (hy : d.year ≠ 0) (hd : d ≠ Time.zero) : Time.zero.Before d = true := by
  unfold parseTime at h
  split at h
  · exact absurd (Except.ok.inj h).symm hd
  · cases ht : timeParse s with
    | none => simp [ht] at h
    | some t =>
      simp only [ht, Except.ok.injEq] at h
      subst h
      obtain ⟨m1, m2, d1, d2, y1, y2, y3, y4, _, _, _, _, _, hlo, _, hday, _⟩ :=
        (timeParse_eq_some s t).1 ht
      have hm := month_toNat_range t.month
      rcases t with ⟨ty, tm, td⟩
      simp only at hy hlo hday hm
      have hne : ¬ (ty = 1 ∧ tm.toNat = 1 ∧ td = 1) := by
        rintro ⟨h1, h2, h3⟩
        apply hd
        have : tm = Month.January := month_toNat_injective tm .January (by simpa using h2)
        rw [h1, this, h3]
        rfl
      have hj : Month.January.toNat = 1 := rfl
      simp only [Time.Before, Time.zero, Bool.or_eq_true, Bool.and_eq_true,
        decide_eq_true_eq, beq_iff_eq, hj]
      omega

/-- C18 (amended): a shaped row whose date-sold cell is `Unknown` and whose value cells are
well formed is accepted with the zero sale date, January 1 of year 1; after the sort such a
transaction never stands behind a transaction whose sale date is later than January 1 of
year 1, and every parsed sale date other than `01/01/0001` and the dates of year 0000 is that
late; it is always put into Q1 (`determineQuarterFromDate` returns 0 for the zero date), and
its line shows the sale date `01/01/0001`. -/
theorem C18_unknown_sale_date :
    (∀ r : List Str, r.length = 10 → r.head? ≠ some [] → r.getD 4 [] = "Unknown".toList →
      valueCellsWellFormed r = true →
      ∃ t, parseRecordToTranscation r = .ok (t, none) ∧ t.DateSold = Time.zero) ∧
    Time.zero = ⟨1, .January, 1⟩ ∧
    (∀ (l : List Transaction) (t u : Transaction), t.DateSold = Time.zero →
      Time.zero.Before u.DateSold = true →
      ¬ [u, t].Sublist (sortSliceStable lessDateSold l)) ∧
    (∀ (s : Str) (d : Time), parseTime s = .ok d → d.year ≠ 0 → d ≠ Time.zero →
      Time.zero.Before d = true) ∧
    determineQuarterFromDate Time.zero = 0 ∧
    (∀ (l : List Transaction) (t : Transaction), t ∈ l → t.DateSold = Time.zero →
      ∃ qs, bucket (sortSliceStable lessDateSold l) = .ok qs ∧
        t ∈ quarterTransactions qs 0) ∧
    Time.zero.Format = "01/01/0001".toList ∧
    (∀ t : Transaction, t.DateSold = Time.zero →
      soldLine t = "Sold ".toList ++ formatFixed 1 t.Quantity ++ " shares of ".toList ++
        t.Symbol ++ " on 01/01/0001 for a ".toList ++ gainPhrase t ++ " \n".toList) := by
  refine ⟨fun r hl h0 h4 hw => ?_, rfl, fun l t u ht hu hsub => ?_, parseTime_after_zero,
    by decide, fun l t htl ht => ?_, by decide, fun t ht => ?_⟩
  · obtain ⟨⟨t, e⟩, hp⟩ := (isOk_iff_exists _).1 ((parseRecord_isOk_iff r).2 (fun _ _ => hw))
    obtain ⟨c0, c1, c2, c3, c4, c5, c6, c7, c8, c9, rfl⟩ := length_eq_ten r hl
    have h0 : c0 ≠ [] := by simpa using h0
    cases e with
    | some e => exact absurd hp (parseRecord_shaped_no_error _ _ _ _ _ _ _ _ _ _ h0 t e)
    | none =>
      refine ⟨t, hp, ?_⟩
      have h := ((parseRecord_accept_iff _ _ _ _ _ _ _ _ _ _ h0 t).1 hp).2.2.2.2.1
      have h4 : c4 = "Unknown".toList := by simpa using h4
      rw [h4] at h
      have hz : parseTime "Unknown".toList = .ok Time.zero := by decide
      rw [hz] at h
      exact (Except.ok.inj h).symm
  · have hs := (sortSliceStable_isStableSort l).2.1
    have h2 := hs.sublist hsub
    simp only [List.pairwise_cons, List.mem_singleton, forall_eq] at h2
    rw [ht] at h2
    rw [h2.1] at hu
    exact absurd hu (by simp)
  · obtain ⟨qs, hqs, _, hk⟩ :=
      bucketFrom_spec (sortSliceStable lessDateSold l) (makeQuarters 4)
        (makeQuarters_length 4)
    refine ⟨qs, hqs, ?_⟩
    rw [hk 0, quarterTransactions_makeQuarters, List.nil_append]
    have hmem : t ∈ sortSliceStable lessDateSold l :=
      (sortSliceStable_isStableSort l).1.mem_iff.2 htl
    simp only [inQuarter, List.mem_filter, beq_iff_eq]
    refine ⟨hmem, ?_⟩
    rw [ht]
    decide
  · simp only [soldLine, ht]
    have hf : Time.zero.Format = "01/01/0001".toList := by decide
    rw [hf]
    simp

theorem C18_unknown_sale_date_witness :
    (∃ t, parseRecordToTranscation sampleRowUnknown = .ok (t, none) ∧
      t.DateSold = Time.zero) ∧
    ¬ [sampleAAPL, transactionSoldOn Time.zero].Sublist
      (sortSliceStable lessDateSold [sampleAAPL, transactionSoldOn Time.zero, sampleMSFT]) ∧
    Time.zero.Before ⟨2023, .February, 15⟩ = true ∧
    ∃ qs, bucket (sortSliceStable lessDateSold [sampleAAPL, transactionSoldOn Time.zero]) =
        .ok qs ∧ transactionSoldOn Time.zero ∈ quarterTransactions qs 0 :=
  ⟨C18_unknown_sale_date.1 sampleRowUnknown (by decide) (by decide) (by decide) (by decide!),
   C18_unknown_sale_date.2.2.1 _ _ _ rfl (by decide),
   C18_unknown_sale_date.2.2.2.1 "02/15/2023".toList _ (by decide) (by decide) (by decide),
   C18_unknown_sale_date.2.2.2.2.2.1 _ _ (by simp) rfl⟩

/-! ## C19: the order of the report -/

theorem quarter_mono (a b : Time) (hy : a.year = b.year) (h : b.Before a = false) :
    determineQuarterFromDate a ≤ determineQuarterFromDate b := by
  rw [determineQuarter_eq, determineQuarter_eq]
  have ha := month_toNat_range a.month
  have hb := month_toNat_range b.month
  simp only [Time.Before, Bool.or_eq_false_iff, Bool.and_eq_false_iff,
    decide_eq_false_iff_not, beq_eq_false_iff_ne, ne_eq] at h
  simp only [Time.Month]
  omega

theorem inQuarter_nil_of_lt (k : Nat) (l : List Transaction)
    (h : ∀ t ∈ l, k < determineQuarterFromDate t.DateSold) : inQuarter k l = [] := by
  simp only [inQuarter, List.filter_eq_nil_iff, beq_iff_eq]
  intro t ht heq
  have := h t ht
  omega

/-- For a list in non-decreasing order of sale date within one calendar year, the four
quarter sublists one after the other give the list back. -/
theorem inQuarter_append_of_sorted (l : List Transaction) (y : Nat)
    (hy : ∀ t ∈ l, t.DateSold.year = y)
    (hs : l.Pairwise (fun a b => b.DateSold.Before a.DateSold = false)) :
    inQuarter 0 l ++ inQuarter 1 l ++ inQuarter 2 l ++ inQuarter 3 l = l := by
  induction l with
  | nil => rfl
  | cons a rest ih =>
    rw [List.pairwise_cons] at hs
    have hyr : ∀ t ∈ rest, t.DateSold.year = y := fun t ht => hy t (List.mem_cons_of_mem _ ht)
    have ih := ih hyr hs.2
    have hge : ∀ t ∈ rest,
        determineQuarterFromDate a.DateSold ≤ determineQuarterFromDate t.DateSold :=
      fun t ht => quarter_mono _ _
        ((hy a (List.mem_cons_self _ _)).trans (hyr t ht).symm) (hs.1 t ht)
    have h := determineQuarter_lt a.DateSold
    have h0 : determineQuarterFromDate a.DateSold = 0 ∨
        determineQuarterFromDate a.DateSold = 1 ∨ determineQuarterFromDate a.DateSold = 2 ∨
        determineQuarterFromDate a.DateSold = 3 := by omega
    rcases h0 with h0 | h0 | h0 | h0
    · have e0 : inQuarter 0 (a :: rest) = a :: inQuarter 0 rest := by
        simp [inQuarter, List.filter_cons, h0]
      have e1 : inQuarter 1 (a :: rest) = inQuarter 1 rest := by
        simp [inQuarter, List.filter_cons, h0]
      have e2 : inQuarter 2 (a :: rest) = inQuarter 2 rest := by
        simp [inQuarter, List.filter_cons, h0]
      have e3 : inQuarter 3 (a :: rest) = inQuarter 3 rest := by
        simp [inQuarter, List.filter_cons, h0]
      rw [e0, e1, e2, e3, List.cons_append, List.cons_append, List.cons_append, ih]
    · have n0 : inQuarter 0 rest = [] :=
        inQuarter_nil_of_lt 0 rest (fun t ht => by have := hge t ht; omega)
      have e0 : inQuarter 0 (a :: rest) = [] := by
        simp [inQuarter, List.filter_cons, h0] at n0 ⊢
        exact n0
      have e1 : inQuarter 1 (a :: rest) = a :: inQuarter 1 rest := by
        simp [inQuarter, List.filter_cons, h0]
      have e2 : inQuarter 2 (a :: rest) = inQuarter 2 rest := by
        simp [inQuarter, List.filter_cons, h0]
      have e3 : inQuarter 3 (a :: rest) = inQuarter 3 rest := by
        simp [inQuarter, List.filter_cons, h0]
      rw [n0, List.nil_append] at ih
      rw [e0, e1, e2, e3, List.nil_append, List.cons_append, List.cons_append, ih]
    · have n0 : inQuarter 0 rest = [] :=
        inQuarter_nil_of_lt 0 rest (fun t ht => by have := hge t ht; omega)
      have n1 : inQuarter 1 rest = [] :=
        inQuarter_nil_of_lt 1 rest (fun t ht => by have := hge t ht; omega)
      have e0 : inQuarter 0 (a :: rest) = [] := by
        simp [inQuarter, List.filter_cons, h0] at n0 ⊢
        exact n0
      have e1 : inQuarter 1 (a :: rest) = [] := by
        simp [inQuarter, List.filter_cons, h0] at n1 ⊢
        exact n1
      have e2 : inQuarter 2 (a :: rest) = a :: inQuarter 2 rest := by
        simp [inQuarter, List.filter_cons, h0]
      have e3 : inQuarter 3 (a :: rest) = inQuarter 3 rest := by
        simp [inQuarter, List.filter_cons, h0]
      rw [n0, n1, List.nil_append, List.nil_append] at ih
      rw [e0, e1, e2, e3, List.nil_append, List.nil_append, List.cons_append, ih]
    · have n0 : inQuarter 0 rest = [] :=
        inQuarter_nil_of_lt 0 rest (fun t ht => by have := hge t ht; omega)
      have n1 : inQuarter 1 rest = [] :=
        inQuarter_nil_of_lt 1 rest (fun t ht => by have := hge t ht; omega)
      have n2 : inQuarter 2 rest = [] :=
        inQuarter_nil_of_lt 2 rest (fun t ht => by have := hge t ht; omega)
      have e0 : inQuarter 0 (a :: rest) = [] := by
        simp [inQuarter, List.filter_cons, h0] at n0 ⊢
        exact n0
      have e1 : inQuarter 1 (a :: rest) = [] := by
        simp [inQuarter, List.filter_cons, h0] at n1 ⊢
        exact n1
      have e2 : inQuarter 2 (a :: rest) = [] := by
        simp [inQuarter, List.filter_cons, h0] at n2 ⊢
        exact n2
      have e3 : inQuarter 3 (a :: rest) = a :: inQuarter 3 rest := by
        simp [inQuarter, List.filter_cons, h0]
      rw [n0, n1, n2, List.nil_append, List.nil_append, List.nil_append] at ih
      rw [e0, e1, e2, e3, List.nil_append, List.nil_append, List.nil_append, ih]

theorem bucket_reportOrder (l : List Transaction) :
    ∃ qs, bucket l = .ok qs ∧ qs.length = 4 ∧
      (qs.map (fun q => q.Transactions)).flatten = reportOrder qs ∧
      reportOrder qs = inQuarter 0 l ++ inQuarter 1 l ++ inQuarter 2 l ++ inQuarter 3 l := by
  obtain ⟨qs, hqs, hlen, hk⟩ := bucketFrom_spec l (makeQuarters 4) (makeQuarters_length 4)
  refine ⟨qs, hqs, hlen, ?_, ?_⟩
  · match qs, hlen with
    | [q0, q1, q2, q3], _ => simp [reportOrder, quarterTransactions]
  · simp only [reportOrder, hk, quarterTransactions_makeQuarters, List.nil_append]

/-- The transaction lines of a run without panic, in the order they are printed: those of
Q1, then Q2, Q3 and Q4. -/
theorem main_transactionLines (records : List (List Str))
    (h : ∀ r ∈ records, (parseRecordToTranscation r).isOk = true) :
    ∃ qs, bucket (sortSliceStable lessDateSold (records.filterMap acceptedTransaction)) =
        .ok qs ∧
      (main records).output.filter Output.isTransactionLine =
        (reportOrder qs).map (fun t => Output.transactionLine (soldLine t)) := by
  obtain ⟨qs, hqs, hmain⟩ := main_of_all_ok records h
  obtain ⟨qs2, hqs2, _, hflat, _⟩ :=
    bucket_reportOrder (sortSliceStable lessDateSold (records.filterMap acceptedTransaction))
  have heq : qs2 = qs := by
    rw [hqs] at hqs2
    exact (Except.ok.inj hqs2).symm
  subst heq
  have hlog1 : (ingestLog records).filter Output.isTransactionLine = [] :=
    List.filter_eq_nil_iff.2 (fun o ho => by simp [(ingestLog_no_report records o ho).1])
  refine ⟨qs2, hqs, ?_⟩
  rw [hmain]
  simp only [List.filter_append, hlog1, List.nil_append, printQuartersFrom_transactionLines,
    hflat]
  simp [List.filter_cons, Output.isTransactionLine]

/-- C19: when all transactions have their sale dates in one calendar year, the four buckets
Q1, Q2, Q3, Q4 one after the other are the stably sorted all-transactions list, so the lines
of the report come in ascending order of sale date; without that condition this fails: a
sale on 11/01/2022 and a sale on 02/01/2023 are sorted with the 2022 sale first and reported
with the 2023 sale first. -/
theorem C19_same_year_report_order :
    (∀ (all : List Transaction) (y : Nat), (∀ t ∈ all, t.DateSold.year = y) →
      ∃ qs, bucket (sortSliceStable lessDateSold all) = .ok qs ∧
        reportOrder qs = sortSliceStable lessDateSold all) ∧
    (∀ (records : List (List Str)) (y : Nat),
      (∀ r ∈ records, (parseRecordToTranscation r).isOk = true) →
      (∀ t ∈ records.filterMap acceptedTransaction, t.DateSold.year = y) →
      (main records).output.filter Output.isTransactionLine =
        (sortSliceStable lessDateSold (records.filterMap acceptedTransaction)).map
          (fun t => Output.transactionLine (soldLine t))) ∧
    (acceptedTransaction sampleRowNov2022 =
        some (flatSale "NOV" "Nov Co" ⟨2022, .November, 1⟩) ∧
      acceptedTransaction sampleRowFeb2023 =
        some (flatSale "FEB" "Feb Co" ⟨2023, .February, 1⟩) ∧
      sortSliceStable lessDateSold
        [flatSale "NOV" "Nov Co" ⟨2022, .November, 1⟩,
         flatSale "FEB" "Feb Co" ⟨2023, .February, 1⟩] =
        [flatSale "NOV" "Nov Co" ⟨2022, .November, 1⟩,
         flatSale "FEB" "Feb Co" ⟨2023, .February, 1⟩] ∧
      bucket (sortSliceStable lessDateSold
        [flatSale "NOV" "Nov Co" ⟨2022, .November, 1⟩,
         flatSale "FEB" "Feb Co" ⟨2023, .February, 1⟩]) =
        .ok [⟨[flatSale "FEB" "Feb Co" ⟨2023, .February, 1⟩]⟩, ⟨[]⟩, ⟨[]⟩,
          ⟨[flatSale "NOV" "Nov Co" ⟨2022, .November, 1⟩]⟩] ∧
      (main [sampleRowNov2022, sampleRowFeb2023]).output.filter Output.isTransactionLine =
        [Output.transactionLine (soldLine (flatSale "FEB" "Feb Co" ⟨2023, .February, 1⟩)),
         Output.transactionLine (soldLine (flatSale "NOV" "Nov Co" ⟨2022, .November, 1⟩))]) := by
  have part1 : ∀ (all : List Transaction) (y : Nat), (∀ t ∈ all, t.DateSold.year = y) →
      ∃ qs, bucket (sortSliceStable lessDateSold all) = .ok qs ∧
        reportOrder qs = sortSliceStable lessDateSold all := by
    intro all y hy
    obtain ⟨qs, hqs, _, _, hrep⟩ := bucket_reportOrder (sortSliceStable lessDateSold all)
    obtain ⟨hperm, hsorted, _⟩ := sortSliceStable_isStableSort all
    refine ⟨qs, hqs, ?_⟩
    rw [hrep]
    exact inQuarter_append_of_sorted _ y (fun t ht => hy t (hperm.mem_iff.1 ht)) hsorted
  refine ⟨part1, fun records y hok hy => ?_,
    by decide!, by decide!, by decide!, by decide!, by decide!⟩
  obtain ⟨qs, hqs, hlines⟩ := main_transactionLines records hok
  obtain ⟨qs2, hqs2, hrep⟩ := part1 (records.filterMap acceptedTransaction) y hy
  have heq : qs2 = qs := by
    rw [hqs] at hqs2
    exact (Except.ok.inj hqs2).symm
  subst heq
  rw [hlines, hrep]

theorem C19_same_year_report_order_witness :
    (∃ qs, bucket (sortSliceStable lessDateSold [sampleMSFT, sampleAAPL]) = .ok qs ∧
      reportOrder qs = sortSliceStable lessDateSold [sampleMSFT, sampleAAPL]) ∧
    (main [sampleRowMSFT, sampleRowJunk, sampleRowAAPL]).output.filter
        Output.isTransactionLine =
      (sortSliceStable lessDateSold
        ([sampleRowMSFT, sampleRowJunk, sampleRowAAPL].filterMap acceptedTransaction)).map
        (fun t => Output.transactionLine (soldLine t)) :=
  ⟨C19_same_year_report_order.1 [sampleMSFT, sampleAAPL] 2023 (by decide),
   C19_same_year_report_order.2.1 [sampleRowMSFT, sampleRowJunk, sampleRowAAPL] 2023
     (by decide!) (by decide!)⟩

/-! ## C13: the quarter totals -/

theorem roundToFloat64_zero : roundToFloat64 0 1 = some 0 := by decide

/-- The model of the `float64` addition computes the IEEE 754 sum. -/
theorem add_eq_ieeeSum (a b : Float64) : a.add b = ieeeSum a b := by
  cases a with
  | nan => cases b <;> rfl
  | inf sa => cases b <;> rfl
  | finite sa ma =>
    cases b with
    | nan => rfl
    | inf sb => rfl
    | finite sb mb =>
      cases sa <;> cases sb
      · have hz : ((ma : Int) + (mb : Int)).natAbs = ma + mb := by omega
        simp only [Float64.add, ieeeSum, Float64.ofExact, Float64.exactUnits, hz, if_true,
          Bool.false_eq_true, if_false, Bool.and_self]
        cases hr : roundToFloat64 (ma + mb) 1 with
        | none =>
          have : ¬ ((ma : Int) + (mb : Int) < 0) := by omega
          simp [this]
        | some m =>
          have : ¬ ((ma : Int) + (mb : Int) < 0) := by omega
          simp [this]
      · simp only [Float64.add, ieeeSum, Float64.ofExact, Float64.exactUnits, if_true,
          Bool.false_eq_true, if_false, Bool.and_true, Bool.and_false]
        by_cases h1 : ma = mb
        · subst h1
          have hz : ((ma : Int) + -(ma : Int)) = 0 := by omega
          simp [hz, roundToFloat64_zero]
        · by_cases h2 : mb < ma
          · have hz : ((ma : Int) + -(mb : Int)).natAbs = ma - mb := by omega
            have hn : ¬ ((ma : Int) + -(mb : Int) < 0) := by omega
            have h0 : ¬ ((ma : Int) + -(mb : Int) = 0) := by omega
            simp only [hz, hn, h0, h1, h2, if_true, if_false, decide_False,
              Bool.false_eq_true]
          · have hz : ((ma : Int) + -(mb : Int)).natAbs = mb - ma := by omega
            have hn : ((ma : Int) + -(mb : Int) < 0) := by omega
            have h0 : ¬ ((ma : Int) + -(mb : Int) = 0) := by omega
            simp only [hz, hn, h0, h1, h2, if_true, if_false, decide_True,
              Bool.false_eq_true]
      · simp only [Float64.add, ieeeSum, Float64.ofExact, Float64.exactUnits, if_true,
          Bool.false_eq_true, if_false, Bool.and_true, Bool.and_false]
        by_cases h1 : ma = mb
        · subst h1
          have hz : (-(ma : Int) + (ma : Int)) = 0 := by omega
          simp [hz, roundToFloat64_zero]
        · by_cases h2 : mb < ma
          · have hz : (-(ma : Int) + (mb : Int)).natAbs = ma - mb := by omega
            have hn : (-(ma : Int) + (mb : Int) < 0) := by omega
            have h0 : ¬ (-(ma : Int) + (mb : Int) = 0) := by omega
            simp only [hz, hn, h0, h1, h2, if_true, if_false, decide_True,
              Bool.true_eq_false]
          · have hz : (-(ma : Int) + (mb : Int)).natAbs = mb - ma := by omega
            have hn : ¬ (-(ma : Int) + (mb : Int) < 0) := by omega
            have h0 : ¬ (-(ma : Int) + (mb : Int) = 0) := by omega
            simp only [hz, hn, h0, h1, h2, if_true, if_false, decide_False,
              Bool.true_eq_false]
      · have hz : (-(ma : Int) + -(mb : Int)).natAbs = ma + mb := by omega
        simp only [Float64.add, ieeeSum, Float64.ofExact, Float64.exactUnits, hz, if_true,
          Bool.and_self]
        cases hr : roundToFloat64 (ma + mb) 1 with
        | none =>
          have : (-(ma : Int) + -(mb : Int) < 0) := by
            by_contra hc
            have h0 : ma + mb = 0 := by omega
            rw [h0, roundToFloat64_zero] at hr
            simp at hr
          simp [this]
        | some m =>
          by_cases h0 : (-(ma : Int) + -(mb : Int)) = 0
          · simp [h0]
          · have : (-(ma : Int) + -(mb : Int) < 0) := by omega
            simp [h0, this]

theorem floatSum_eq_roundedTotal (l : List Float64) : floatSum l = roundedTotal l := by
  have h : Float64.add = ieeeSum := funext (fun a => funext (fun b => add_eq_ieeeSum a b))
  unfold floatSum roundedTotal
  rw [h]

theorem exactUnits_ofExact (z : Int) (zeroSign : Bool) (h : isExactFloat z = true) :
    Float64.ofExact z zeroSign =
      .finite (if z = 0 then zeroSign else decide (z < 0)) z.natAbs ∧
    (Float64.ofExact z zeroSign).exactUnits = z := by
  simp only [isExactFloat, beq_iff_eq] at h
  have h1 : Float64.ofExact z zeroSign =
      .finite (if z = 0 then zeroSign else decide (z < 0)) z.natAbs := by
    simp [Float64.ofExact, h]
  refine ⟨h1, ?_⟩
  rw [h1]
  simp only [Float64.exactUnits]
  by_cases h0 : z = 0
  · subst h0
    simp
  · by_cases hn : z < 0
    · simp only [h0, hn, if_false, decide_True, if_true]
      omega
    · simp only [h0, hn, if_false, decide_False, Bool.false_eq_true]
      omega

/-- When no addition needs rounding, the running `float64` sum is finite and its exact value
is the exact sum. -/
theorem foldl_ieeeSum_exact (l : List Float64) (s : Bool) (m : Nat)
    (h : sumsWithoutRounding (Float64.finite s m).exactUnits l = true) :
    ∃ s1 m1, l.foldl ieeeSum (.finite s m) = .finite s1 m1 ∧
      (Float64.finite s1 m1).exactUnits = (Float64.finite s m).exactUnits + exactSum l := by
  induction l generalizing s m with
  | nil => exact ⟨s, m, rfl, by simp [exactSum]⟩
  | cons x rest ih =>
    cases x with
    | nan => simp [sumsWithoutRounding] at h
    | inf sx => simp [sumsWithoutRounding] at h
    | finite sx mx =>
      simp only [sumsWithoutRounding, Bool.and_eq_true] at h
      obtain ⟨h1, h2⟩ := h
      obtain ⟨hof, hex⟩ := exactUnits_ofExact _ (s && sx) h1
      have hstep : ieeeSum (.finite s m) (.finite sx mx) =
          Float64.ofExact ((Float64.finite s m).exactUnits +
            (Float64.finite sx mx).exactUnits) (s && sx) := rfl
      rw [List.foldl_cons, hstep, hof]
      rw [hof] at hex
      rw [← hex] at h2
      obtain ⟨s1, m1, hfold, hval⟩ := ih _ _ h2
      refine ⟨s1, m1, hfold, ?_⟩
      rw [hval, hex]
      simp only [exactSum, List.map_cons, List.sum_cons]
      omega

theorem roundedTotal_exact (l : List Float64) (h : sumsWithoutRounding 0 l = true) :
    (roundedTotal l).exactUnits = exactSum l := by
  have h0 : (Float64.finite false 0).exactUnits = 0 := by simp [Float64.exactUnits]
  obtain ⟨s1, m1, hfold, hval⟩ := foldl_ieeeSum_exact l false 0 (by rw [h0]; exact h)
  unfold roundedTotal Float64.zero
  rw [hfold, hval, h0]
  omega

/-- A run without panic prints, after the ingest log, the quarter count and the banner, the
four quarter blocks in order: for quarter `k` the lines of the sorted accepted transactions
of that quarter and the summary numbered `k + 1` with the running sums over them. -/
theorem main_output_blocks (records : List (List Str))
    (h : ∀ r ∈ records, (parseRecordToTranscation r).isOk = true) :
    main records =
      ⟨ingestLog records ++ [Output.quarterCount 4, Output.banner] ++
        (quarterBlock "1" (inQuarter 0
            (sortSliceStable lessDateSold (records.filterMap acceptedTransaction))) ++
         quarterBlock "2" (inQuarter 1
            (sortSliceStable lessDateSold (records.filterMap acceptedTransaction))) ++
         quarterBlock "3" (inQuarter 2
            (sortSliceStable lessDateSold (records.filterMap acceptedTransaction))) ++
         quarterBlock "4" (inQuarter 3
            (sortSliceStable lessDateSold (records.filterMap acceptedTransaction)))),
       none⟩ := by
  obtain ⟨qs, hqs, hmain⟩ := main_of_all_ok records h
  obtain ⟨qs2, hqs2, hlen, hk⟩ :=
    bucketFrom_spec (sortSliceStable lessDateSold (records.filterMap acceptedTransaction))
      (makeQuarters 4) (makeQuarters_length 4)
  have heq : qs2 = qs := by
    simp only [bucket] at hqs
    rw [hqs] at hqs2
    exact (Except.ok.inj hqs2).symm
  subst heq
  have h0 := hk 0
  have h1 := hk 1
  have h2 := hk 2
  have h3 := hk 3
  rw [quarterTransactions_makeQuarters, List.nil_append] at h0 h1 h2 h3
  rw [hmain, ← h0, ← h1, ← h2, ← h3]
  have d1 : decimalDigits 1 = "1".toList := by decide
  have d2 : decimalDigits 2 = "2".toList := by decide
  have d3 : decimalDigits 3 = "3".toList := by decide
  have d4 : decimalDigits 4 = "4".toList := by decide
  have hnl : " \n".toList ++ "\n".toList = " \n\n".toList := by decide
  match qs2, hlen with
  | [q0, q1, q2, q3], _ =>
    simp only [printQuartersFrom, printQuarter_eq, floatSum_eq_roundedTotal, quarterBlock,
      quarterEndText, summaryLine, quarterTransactions, List.getD_cons_zero,
      List.getD_cons_succ, d1, d2, d3, d4, hnl, List.append_nil, List.append_assoc]

/-- C13: in every run without panic the report consists of the four quarter blocks in the
order Q1 to Q4, and the block of quarter `k` ends with the summary line that carries the
number `k + 1` and, formatted with two decimals, the running `float64` sums of `ShortTermNet`
and of `LongTermNet` over the sorted accepted transactions of that quarter only, each started
at 0 and each addition the IEEE 754 sum; an empty quarter reports `0.00` and `0.00`. When no
addition needs rounding the printed totals are the exact sums, so the four totals of either
net add up to the sum of that net over all transactions, as the exact sums over the four
buckets always do. On four sample rows the run prints the totals 0.30 and 0.00 for Q1, 0.00
and -24.75 for Q2, and 0.00 and 0.00 for Q3 and Q4. -/
theorem C13_quarter_totals :
    (∀ records : List (List Str),
      (∀ r ∈ records, (parseRecordToTranscation r).isOk = true) →
      main records =
        ⟨ingestLog records ++ [Output.quarterCount 4, Output.banner] ++
          (quarterBlock "1" (inQuarter 0
              (sortSliceStable lessDateSold (records.filterMap acceptedTransaction))) ++
           quarterBlock "2" (inQuarter 1
              (sortSliceStable lessDateSold (records.filterMap acceptedTransaction))) ++
           quarterBlock "3" (inQuarter 2
              (sortSliceStable lessDateSold (records.filterMap acceptedTransaction))) ++
           quarterBlock "4" (inQuarter 3
              (sortSliceStable lessDateSold (records.filterMap acceptedTransaction)))),
         none⟩) ∧
    (∀ a b : Float64, a.add b = ieeeSum a b) ∧
    (∀ number : String, quarterBlock number [] =
      [Output.quarterSummary ("============ End of Quarter ".toList ++ number.toList ++
        " || Short Term Net: 0.00, Long Term Net: 0.00 \n\n".toList)]) ∧
    (∀ l : List Float64, sumsWithoutRounding 0 l = true →
      (roundedTotal l).exactUnits = exactSum l) ∧
    (∀ (f : Transaction → Float64) (all : List Transaction),
      exactSum ((inQuarter 0 (sortSliceStable lessDateSold all)).map f) +
        exactSum ((inQuarter 1 (sortSliceStable lessDateSold all)).map f) +
        exactSum ((inQuarter 2 (sortSliceStable lessDateSold all)).map f) +
        exactSum ((inQuarter 3 (sortSliceStable lessDateSold all)).map f) =
        exactSum (all.map f)) ∧
    (∀ (f : Transaction → Float64) (all : List Transaction),
      sumsWithoutRounding 0 ((inQuarter 0 (sortSliceStable lessDateSold all)).map f) = true →
      sumsWithoutRounding 0 ((inQuarter 1 (sortSliceStable lessDateSold all)).map f) = true →
      sumsWithoutRounding 0 ((inQuarter 2 (sortSliceStable lessDateSold all)).map f) = true →
      sumsWithoutRounding 0 ((inQuarter 3 (sortSliceStable lessDateSold all)).map f) = true →
      (roundedTotal ((inQuarter 0 (sortSliceStable lessDateSold all)).map f)).exactUnits +
        (roundedTotal ((inQuarter 1 (sortSliceStable lessDateSold all)).map f)).exactUnits +
        (roundedTotal ((inQuarter 2 (sortSliceStable lessDateSold all)).map f)).exactUnits +
        (roundedTotal ((inQuarter 3 (sortSliceStable lessDateSold all)).map f)).exactUnits =
        exactSum (all.map f)) ∧
    main sampleRowsTotals =
      ⟨[Output.didNotParse ["Total".toList, [], []],
        Output.quarterCount 4, Output.banner,
        Output.transactionLine
          "Sold 1.0 shares of AAA on 01/10/2023 for a short term gain of 0.10 USD \n".toList,
        Output.transactionLine
          "Sold 1.0 shares of BBB on 03/31/2023 for a short term gain of 0.20 USD \n".toList,
        Output.quarterSummary
          "============ End of Quarter 1 || Short Term Net: 0.30, Long Term Net: 0.00 \n\n".toList,
        Output.transactionLine
          "Sold 2.0 shares of CCC on 04/01/2023 for a long term loss of -50.25 USD \n".toList,
        Output.transactionLine
          "Sold 3.0 shares of DDD on 06/30/2023 for a long term gain of 25.50 USD \n".toList,
        Output.quarterSummary
          "============ End of Quarter 2 || Short Term Net: 0.00, Long Term Net: -24.75 \n\n".toList,
        Output.quarterSummary
          "============ End of Quarter 3 || Short Term Net: 0.00, Long Term Net: 0.00 \n\n".toList,
        Output.quarterSummary
          "============ End of Quarter 4 || Short Term Net: 0.00, Long Term Net: 0.00 \n\n".toList],
       none⟩ := by
  have hpart : ∀ (f : Transaction → Float64) (all : List Transaction),
      exactSum ((inQuarter 0 (sortSliceStable lessDateSold all)).map f) +
        exactSum ((inQuarter 1 (sortSliceStable lessDateSold all)).map f) +
        exactSum ((inQuarter 2 (sortSliceStable lessDateSold all)).map f) +
        exactSum ((inQuarter 3 (sortSliceStable lessDateSold all)).map f) =
        exactSum (all.map f) := fun f all => by
    rw [exactSum_inQuarter]
    exact exactSum_perm _ _ _ (sortSliceStable_isStableSort all).1
  refine ⟨main_output_blocks, add_eq_ieeeSum, fun number => ?_, roundedTotal_exact, hpart,
    fun f all h0 h1 h2 h3 => ?_, by decide!⟩
  · have hz : formatFixed 2 Float64.zero = "0.00".toList := by decide!
    simp only [quarterBlock, quarterEndText, roundedTotal, List.map_nil, List.foldl_nil, hz,
      List.nil_append]
    simp
  · rw [roundedTotal_exact _ h0, roundedTotal_exact _ h1, roundedTotal_exact _ h2,
      roundedTotal_exact _ h3]
    exact hpart f all

theorem C13_quarter_totals_witness :
    main sampleRowsTotals =
      ⟨ingestLog sampleRowsTotals ++ [Output.quarterCount 4, Output.banner] ++
        (quarterBlock "1" (inQuarter 0
            (sortSliceStable lessDateSold (sampleRowsTotals.filterMap acceptedTransaction))) ++
         quarterBlock "2" (inQuarter 1
            (sortSliceStable lessDateSold (sampleRowsTotals.filterMap acceptedTransaction))) ++
         quarterBlock "3" (inQuarter 2
            (sortSliceStable lessDateSold (sampleRowsTotals.filterMap acceptedTransaction))) ++
         quarterBlock "4" (inQuarter 3
            (sortSliceStable lessDateSold (sampleRowsTotals.filterMap acceptedTransaction)))),
       none⟩ ∧
    (roundedTotal [oneHundred, minusFiftyAndAQuarter]).exactUnits =
      exactSum [oneHundred, minusFiftyAndAQuarter] ∧
    (roundedTotal ((inQuarter 0 (sortSliceStable lessDateSold [sampleMSFT, sampleAAPL])).map
        (fun t => t.ShortTermNet))).exactUnits +
      (roundedTotal ((inQuarter 1 (sortSliceStable lessDateSold [sampleMSFT, sampleAAPL])).map
        (fun t => t.ShortTermNet))).exactUnits +
      (roundedTotal ((inQuarter 2 (sortSliceStable lessDateSold [sampleMSFT, sampleAAPL])).map
        (fun t => t.ShortTermNet))).exactUnits +
      (roundedTotal ((inQuarter 3 (sortSliceStable lessDateSold [sampleMSFT, sampleAAPL])).map
        (fun t => t.ShortTermNet))).exactUnits =
      exactSum ([sampleMSFT, sampleAAPL].map (fun t => t.ShortTermNet)) :=
  ⟨C13_quarter_totals.1 sampleRowsTotals (by decide!),
   C13_quarter_totals.2.2.2.1 [oneHundred, minusFiftyAndAQuarter] (by decide!),
   C13_quarter_totals.2.2.2.2.2.1 (fun t => t.ShortTermNet) [sampleMSFT, sampleAAPL]
     (by decide!) (by decide!) (by decide!) (by decide!)⟩

end FidelityTaxSummary
